import Mathlib

/-!
Verification of the DNS wire codec of `rust-dns-server`.

Shallow embedding conventions:
* machine bytes (`u8`) are `Nat` values; every place Rust performs an
  `as u8` cast the model reduces modulo 256 (`u16` casts likewise where
  they can matter);
* the 512-byte array `buf: [u8; 512]` is a `List Nat` (length 512 for
  every buffer the program ever builds);
* Rust `Result<T, Box<dyn Error>>` is `Except String T`, with the exact
  error strings of the source;
* a Rust panic (out-of-bounds slice indexing in `set`) and the unbounded
  `loop` in `read_qname` are modelled with `Option`: `none` means the
  source diverges from ordinary `Result` control flow (a panic, or the
  fuel of the loop ran out).  The fuel is provably sufficient.
* `&mut self` methods take the buffer and return the updated buffer.
* the string `outstr` built by `read_qname` is a `List Nat` of bytes;
  `String::from_utf8_lossy(..).to_lowercase()` is modelled by ASCII
  byte-wise lowercasing (`toLowerByte`), which agrees with the source on
  ASCII data, the only data for which byte identity is ever claimed.
-/

set_option maxRecDepth 16000

/-- One ASCII byte lowercased, modelling `to_lowercase` on ASCII data. -/
def toLowerByte (c : Nat) : Nat := if 65 ≤ c ∧ c ≤ 90 then c + 32 else c

/-- `pub struct BytePacketBuffer { pub buf: [u8; 512], pub pos: usize }` -/
structure BytePacketBuffer where
  buf : List Nat
  pos : Nat
deriving DecidableEq, Repr

namespace BytePacketBuffer

/-- `BytePacketBuffer::new()`: a fresh zeroed buffer. -/
def new : BytePacketBuffer := { buf := List.replicate 512 0, pos := 0 }

/-- `step`: succeeds iff `self.pos + steps < self.buf.len()`. -/
def step (b : BytePacketBuffer) (steps : Nat) : Except String BytePacketBuffer :=
  if b.pos + steps < b.buf.length then .ok { b with pos := b.pos + steps }
  else .error "Buffer overflow"

/-- `seek`: succeeds iff `pos < self.buf.len()`. -/
def seek (b : BytePacketBuffer) (pos : Nat) : Except String BytePacketBuffer :=
  if pos < b.buf.length then .ok { b with pos := pos }
  else .error "Out of buffer"

/-- `read`: read one byte at `pos` and advance. -/
def read (b : BytePacketBuffer) : Except String (Nat × BytePacketBuffer) :=
  if b.pos ≥ 512 then .error "End of buffer (read function)"
  else .ok (b.buf.getD b.pos 0, { b with pos := b.pos + 1 })

/-- `get`: read the byte at an absolute position, no cursor change. -/
def get (b : BytePacketBuffer) (pos : Nat) : Except String Nat :=
  if pos ≥ 512 then .error "End of buffer (get function)"
  else .ok (b.buf.getD pos 0)

/-- `get_range`: borrow `buf[start..start+len]`; errors iff `start + len >= 512`. -/
def get_range (b : BytePacketBuffer) (start len : Nat) : Except String (List Nat) :=
  if start + len ≥ 512 then .error "End of buffer (get_range function)"
  else .ok ((b.buf.drop start).take len)

/-- `read_u16`: two `read`s, big-endian assembly `(hi as u16) << 8 | lo`. -/
def read_u16 (b : BytePacketBuffer) : Except String (Nat × BytePacketBuffer) :=
  match b.read with
  | .error e => .error e
  | .ok (hi, b1) =>
    match b1.read with
    | .error e => .error e
    | .ok (lo, b2) => .ok ((hi <<< 8) ||| lo, b2)

/-- `read_u32`: four `read`s, big-endian assembly. -/
def read_u32 (b : BytePacketBuffer) : Except String (Nat × BytePacketBuffer) :=
  match b.read with
  | .error e => .error e
  | .ok (x0, b1) =>
    match b1.read with
    | .error e => .error e
    | .ok (x1, b2) =>
      match b2.read with
      | .error e => .error e
      | .ok (x2, b3) =>
        match b3.read with
        | .error e => .error e
        | .ok (x3, b4) =>
          .ok (((x0 <<< 24) ||| (x1 <<< 16) ||| (x2 <<< 8) ||| (x3 <<< 0)), b4)

/-- `max_jumps = 5` from `read_qname`. -/
def max_jumps : Nat := 5

/-- The `loop { .. }` body of `read_qname`, with explicit fuel (`none`
means the fuel ran out; the source loop has no such case, and the fuel
is proved sufficient below).  `pos` is the local position, `jumped` /
`jumps_performed` / `delim` / `outstr` are the loop-carried mutables of
the source. -/
def read_qname_loop (b : BytePacketBuffer) : Nat → Nat → Bool → Nat → List Nat → List Nat →
    Option (Except String (BytePacketBuffer × List Nat))
  | 0, _, _, _, _, _ => none
  | fuel + 1, pos, jumped, jumps_performed, delim, outstr =>
    if jumps_performed > max_jumps then
      some (.error "Limit of 5 jumps exceeded")
    else
      match b.get pos with
      | .error e => some (.error e)
      | .ok len =>
        if len &&& 0xC0 = 0xC0 then
          -- `if !jumped { self.seek(pos + 2)?; }`
          match (if jumped then .ok b else b.seek (pos + 2) : Except String BytePacketBuffer) with
          | .error e => some (.error e)
          | .ok b1 =>
            match b1.get (pos + 1) with
            | .error e => some (.error e)
            | .ok b2 =>
              read_qname_loop b1 fuel (((len ^^^ 0xC0) <<< 8) ||| b2) true
                (jumps_performed + 1) delim outstr
        else
          if len = 0 then
            -- `pos += 1; break;` followed by `if !jumped { self.seek(pos)?; }`
            if jumped then some (.ok (b, outstr))
            else
              match b.seek (pos + 1) with
              | .error e => some (.error e)
              | .ok b1 => some (.ok (b1, outstr))
          else
            match b.get_range (pos + 1) len with
            | .error e => some (.error e)
            | .ok s =>
              read_qname_loop b fuel (pos + 1 + len) jumped jumps_performed [46]
                (outstr ++ delim ++ s.map toLowerByte)

/-- Fuel used for `read_qname`; proved sufficient for every input. -/
def qname_fuel : Nat := 4096

/-- `read_qname(&mut self, outstr: &mut String)`. -/
def read_qname (b : BytePacketBuffer) (outstr : List Nat) :
    Option (Except String (BytePacketBuffer × List Nat)) :=
  read_qname_loop b qname_fuel b.pos false 0 [] outstr

/-- `write`: store one byte (`val % 256` models the `u8` argument type)
at the cursor; errors iff `self.pos >= 512`. -/
def write (b : BytePacketBuffer) (val : Nat) : Except String BytePacketBuffer :=
  if b.pos ≥ 512 then .error "End of buffer (write function)"
  else .ok { buf := b.buf.set b.pos (val % 256), pos := b.pos + 1 }

/-- `write_u8` (delegates to `write`). -/
def write_u8 (b : BytePacketBuffer) (val : Nat) : Except String BytePacketBuffer :=
  b.write val

/-- `write_u16`: writes `(val >> 8) as u8` then `(val & 0xFF) as u8`. -/
def write_u16 (b : BytePacketBuffer) (val : Nat) : Except String BytePacketBuffer :=
  match b.write (val >>> 8) with
  | .error e => .error e
  | .ok b1 => b1.write (val &&& 0xFF)

/-- `write_u32`: four bytes, most significant first. -/
def write_u32 (b : BytePacketBuffer) (val : Nat) : Except String BytePacketBuffer :=
  match b.write ((val >>> 24) &&& 0xFF) with
  | .error e => .error e
  | .ok b1 =>
    match b1.write ((val >>> 16) &&& 0xFF) with
    | .error e => .error e
    | .ok b2 =>
      match b2.write ((val >>> 8) &&& 0xFF) with
      | .error e => .error e
      | .ok b3 => b3.write ((val >>> 0) &&& 0xFF)

/-- The inner `for i in 0..len { self.write_u8(qname.chars().nth(at + i).unwrap() as u8)?; }`
of `write_qname`.  The `unwrap` cannot fire: the loop invariant keeps
`at + i` inside `qname`, so indexing is modelled with `getD`. -/
def write_chars (qname : List Nat) : BytePacketBuffer → Nat → Nat → Except String BytePacketBuffer
  | b, _, 0 => .ok b
  | b, at_, n + 1 =>
    match b.write_u8 (qname.getD at_ 0) with
    | .error e => .error e
    | .ok b1 => write_chars qname b1 (at_ + 1) n

/-- The `for c in qname.chars()` loop of `write_qname` plus the trailing
label flush and zero terminator, with loop-carried `len` and `at`. -/
def write_qname_loop (qname : List Nat) :
    BytePacketBuffer → List Nat → Nat → Nat → Except String BytePacketBuffer
  | b, [], len, at_ =>
    match b.write_u8 len with
    | .error e => .error e
    | .ok b1 =>
      match write_chars qname b1 at_ len with
      | .error e => .error e
      | .ok b2 => b2.write_u8 0
  | b, c :: rest, len, at_ =>
    if c = 46 then
      match b.write_u8 len with
      | .error e => .error e
      | .ok b1 =>
        match write_chars qname b1 at_ len with
        | .error e => .error e
        | .ok b2 => write_qname_loop qname b2 rest 0 (at_ + len + 1)
    else
      write_qname_loop qname b rest (len + 1) at_

/-- `write_qname(&mut self, qname: &str)` (the active, unchecked version). -/
def write_qname (b : BytePacketBuffer) (qname : List Nat) : Except String BytePacketBuffer :=
  write_qname_loop qname b qname 0 0

/-- `set`: `self.buf[pos] = val` with no bounds check — an out-of-range
`pos` is a Rust slice-indexing panic, modelled as `none`. -/
def set (b : BytePacketBuffer) (pos val : Nat) : Option (Except String BytePacketBuffer) :=
  if pos < b.buf.length then some (.ok { b with buf := b.buf.set pos (val % 256) })
  else none

/-- `set_u16`: two `set`s. -/
def set_u16 (b : BytePacketBuffer) (pos val : Nat) : Option (Except String BytePacketBuffer) :=
  match b.set pos (val >>> 8) with
  | none => none
  | some (.error e) => some (.error e)
  | some (.ok b1) =>
    match b1.set (pos + 1) (val &&& 0xFF) with
    | none => none
    | some (.error e) => some (.error e)
    | some (.ok b2) => some (.ok b2)

end BytePacketBuffer

/-! ## The DNS data model (`main.rs`) -/

/-- `enum ResultCode { NOERROR = 0, .. REFUSED = 5 }` -/
inductive ResultCode
  | NOERROR | FORMERR | SERVFAIL | NXDOMAIN | NOTIMP | REFUSED
deriving DecidableEq, Repr

namespace ResultCode

/-- `ResultCode::from_num`. -/
def from_num (num : Nat) : ResultCode :=
  match num with
  | 1 => .FORMERR
  | 2 => .SERVFAIL
  | 3 => .NXDOMAIN
  | 4 => .NOTIMP
  | 5 => .REFUSED
  | _ => .NOERROR

/-- The discriminant of the fieldless enum (the value of `rescode as u8`). -/
def toNat : ResultCode → Nat
  | .NOERROR => 0
  | .FORMERR => 1
  | .SERVFAIL => 2
  | .NXDOMAIN => 3
  | .NOTIMP => 4
  | .REFUSED => 5

end ResultCode

/-- `struct DnsHeader` — flag fields are `bool`, `opcode` is a `u8`,
`id` and the four counts are `u16` (modelled as `Nat`). -/
structure DnsHeader where
  id : Nat
  recursion_desired : Bool
  truncate_message : Bool
  authoritative_answer : Bool
  opcode : Nat
  response : Bool
  rescode : ResultCode
  checking_disabled : Bool
  authed_data : Bool
  z : Bool
  recursion_available : Bool
  questions : Nat
  answers : Nat
  authoritative_entries : Nat
  resource_entries : Nat
deriving DecidableEq, Repr

namespace DnsHeader

/-- `DnsHeader::new()`. -/
def new : DnsHeader :=
  { id := 0
    recursion_desired := false
    truncate_message := false
    authoritative_answer := false
    opcode := 0
    response := false
    rescode := .NOERROR
    checking_disabled := false
    authed_data := false
    z := false
    recursion_available := false
    questions := 0
    answers := 0
    authoritative_entries := 0
    resource_entries := 0 }

/-- `DnsHeader::read` (the source overwrites every field of `self`, so
the previous header value is irrelevant and not taken as an argument). -/
def read (b : BytePacketBuffer) : Except String (DnsHeader × BytePacketBuffer) :=
  match b.read_u16 with
  | .error e => .error e
  | .ok (id, b1) =>
    match b1.read_u16 with
    | .error e => .error e
    | .ok (flags, b2) =>
      let a := (flags >>> 8) % 256      -- `(flags >> 8) as u8`
      let bb := flags &&& 0xFF          -- `(flags & 0xFF) as u8`
      match b2.read_u16 with
      | .error e => .error e
      | .ok (questions, b3) =>
        match b3.read_u16 with
        | .error e => .error e
        | .ok (answers, b4) =>
          match b4.read_u16 with
          | .error e => .error e
          | .ok (authoritative_entries, b5) =>
            match b5.read_u16 with
            | .error e => .error e
            | .ok (resource_entries, b6) =>
              .ok ({ id := id
                     recursion_desired := decide (a &&& (1 <<< 0) > 0)
                     truncate_message := decide (a &&& (1 <<< 1) > 0)
                     authoritative_answer := decide (a &&& (1 <<< 2) > 0)
                     opcode := (a >>> 3) &&& 0x0F
                     response := decide (a &&& (1 <<< 7) > 0)
                     rescode := ResultCode.from_num (bb &&& 0x0F)
                     checking_disabled := decide (bb &&& (1 <<< 4) > 0)
                     authed_data := decide (bb &&& (1 <<< 5) > 0)
                     z := decide (bb &&& (1 <<< 6) > 0)
                     recursion_available := decide (bb &&& (1 <<< 7) > 0)
                     questions := questions
                     answers := answers
                     authoritative_entries := authoritative_entries
                     resource_entries := resource_entries }, b6)

/-- `DnsHeader::write`; `(self.opcode) << 3` is a `u8` shift, hence the
`% 256`.  All other packed operands are below 256 already. -/
def write (h : DnsHeader) (b : BytePacketBuffer) : Except String BytePacketBuffer :=
  match b.write_u16 h.id with
  | .error e => .error e
  | .ok b1 =>
    match b1.write_u8 (h.recursion_desired.toNat |||
        (h.truncate_message.toNat <<< 1) |||
        (h.authoritative_answer.toNat <<< 2) |||
        ((h.opcode <<< 3) % 256) |||
        (h.response.toNat <<< 7)) with
    | .error e => .error e
    | .ok b2 =>
      match b2.write_u8 (h.rescode.toNat |||
          (h.checking_disabled.toNat <<< 4) |||
          (h.authed_data.toNat <<< 5) |||
          (h.z.toNat <<< 6) |||
          (h.recursion_available.toNat <<< 7)) with
      | .error e => .error e
      | .ok b3 =>
        match b3.write_u16 h.questions with
        | .error e => .error e
        | .ok b4 =>
          match b4.write_u16 h.answers with
          | .error e => .error e
          | .ok b5 =>
            match b5.write_u16 h.authoritative_entries with
            | .error e => .error e
            | .ok b6 => b6.write_u16 h.resource_entries

end DnsHeader

/-- `enum QueryType { UNKNOWN(u16), A }` (`main.rs` version). -/
inductive QueryType
  | UNKNOWN (x : Nat)
  | A
deriving DecidableEq, Repr

namespace QueryType

/-- `QueryType::to_num`. -/
def to_num : QueryType → Nat
  | .UNKNOWN x => x
  | .A => 1

/-- `QueryType::from_num`. -/
def from_num (num : Nat) : QueryType :=
  match num with
  | 1 => .A
  | _ => .UNKNOWN num

end QueryType

/-- `struct DnsQuestion { name: String, qtype: QueryType }` -/
structure DnsQuestion where
  name : List Nat
  qtype : QueryType
deriving DecidableEq, Repr

namespace DnsQuestion

/-- `DnsQuestion::new`. -/
def new (name : List Nat) (qtype : QueryType) : DnsQuestion := { name := name, qtype := qtype }

/-- `DnsQuestion::read` — `read_qname` appends onto the existing
`self.name`; then the type code and the discarded class field. -/
def read (q : DnsQuestion) (b : BytePacketBuffer) :
    Option (Except String (DnsQuestion × BytePacketBuffer)) :=
  match b.read_qname q.name with
  | none => none
  | some (.error e) => some (.error e)
  | some (.ok (b1, name)) =>
    match b1.read_u16 with
    | .error e => some (.error e)
    | .ok (tn, b2) =>
      match b2.read_u16 with
      | .error e => some (.error e)
      | .ok (_, b3) => some (.ok ({ name := name, qtype := QueryType.from_num tn }, b3))

/-- `DnsQuestion::write`. -/
def write (q : DnsQuestion) (b : BytePacketBuffer) : Except String BytePacketBuffer :=
  match b.write_qname q.name with
  | .error e => .error e
  | .ok b1 =>
    match b1.write_u16 q.qtype.to_num with
    | .error e => .error e
    | .ok b2 => b2.write_u16 1

end DnsQuestion

/-- `Ipv4Addr` — four octets. -/
structure Ipv4 where
  o0 : Nat
  o1 : Nat
  o2 : Nat
  o3 : Nat
deriving DecidableEq, Repr

/-- `enum DnsRecord { UNKNOWN { .. }, A { .. } }` -/
inductive DnsRecord
  | UNKNOWN (domain : List Nat) (qtype : Nat) (ttl : Nat) (data_len : Nat)
  | A (domain : List Nat) (addr : Ipv4) (ttl : Nat)
deriving DecidableEq, Repr

namespace DnsRecord

/-- `DnsRecord::read`. -/
def read (b : BytePacketBuffer) : Option (Except String (DnsRecord × BytePacketBuffer)) :=
  match b.read_qname [] with
  | none => none
  | some (.error e) => some (.error e)
  | some (.ok (b1, domain)) =>
    match b1.read_u16 with
    | .error e => some (.error e)
    | .ok (qtype_num, b2) =>
      match b2.read_u16 with        -- class, read and discarded
      | .error e => some (.error e)
      | .ok (_, b3) =>
        match b3.read_u32 with
        | .error e => some (.error e)
        | .ok (ttl, b4) =>
          match b4.read_u16 with
          | .error e => some (.error e)
          | .ok (data_len, b5) =>
            match QueryType.from_num qtype_num with
            | .A =>
              match b5.read_u32 with
              | .error e => some (.error e)
              | .ok (raw_addr, b6) =>
                some (.ok (.A domain
                  { o0 := (raw_addr >>> 24) &&& 0xFF
                    o1 := (raw_addr >>> 16) &&& 0xFF
                    o2 := (raw_addr >>> 8) &&& 0xFF
                    o3 := (raw_addr >>> 0) &&& 0xFF } ttl, b6))
            | .UNKNOWN _ =>
              match b5.step data_len with
              | .error e => some (.error e)
              | .ok b6 => some (.ok (.UNKNOWN domain qtype_num ttl data_len, b6))

/-- `DnsRecord::write` — returns the number of bytes the record occupied
on the wire; an `UNKNOWN` record only prints and writes nothing. -/
def write (r : DnsRecord) (b : BytePacketBuffer) : Except String (Nat × BytePacketBuffer) :=
  let start_pos := b.pos
  match r with
  | .A domain addr ttl =>
    match b.write_qname domain with
    | .error e => .error e
    | .ok b1 =>
      match b1.write_u16 QueryType.A.to_num with
      | .error e => .error e
      | .ok b2 =>
        match b2.write_u16 1 with
        | .error e => .error e
        | .ok b3 =>
          match b3.write_u32 ttl with
          | .error e => .error e
          | .ok b4 =>
            match b4.write_u16 4 with
            | .error e => .error e
            | .ok b5 =>
              match b5.write_u8 addr.o0 with
              | .error e => .error e
              | .ok b6 =>
                match b6.write_u8 addr.o1 with
                | .error e => .error e
                | .ok b7 =>
                  match b7.write_u8 addr.o2 with
                  | .error e => .error e
                  | .ok b8 =>
                    match b8.write_u8 addr.o3 with
                    | .error e => .error e
                    | .ok b9 => .ok (b9.pos - start_pos, b9)
  | .UNKNOWN _ _ _ _ => .ok (b.pos - start_pos, b)

end DnsRecord

/-- `struct DnsPacket`. -/
structure DnsPacket where
  header : DnsHeader
  questions : List DnsQuestion
  answers : List DnsRecord
  authorities : List DnsRecord
  resources : List DnsRecord
deriving DecidableEq, Repr

namespace DnsPacket

/-- `DnsPacket::new()`. -/
def new : DnsPacket :=
  { header := DnsHeader.new, questions := [], answers := [], authorities := [], resources := [] }

/-- The `for _ in 0..count` question-reading loop of `from_buffer`:
each question starts as `DnsQuestion::new("".to_string(), UNKNOWN(0))`. -/
def read_questions : Nat → BytePacketBuffer →
    Option (Except String (List DnsQuestion × BytePacketBuffer))
  | 0, b => some (.ok ([], b))
  | n + 1, b =>
    match (DnsQuestion.new [] (.UNKNOWN 0)).read b with
    | none => none
    | some (.error e) => some (.error e)
    | some (.ok (q, b1)) =>
      match read_questions n b1 with
      | none => none
      | some (.error e) => some (.error e)
      | some (.ok (qs, b2)) => some (.ok (q :: qs, b2))

/-- A `for _ in 0..count { DnsRecord::read(buffer)? }` loop of `from_buffer`. -/
def read_records : Nat → BytePacketBuffer →
    Option (Except String (List DnsRecord × BytePacketBuffer))
  | 0, b => some (.ok ([], b))
  | n + 1, b =>
    match DnsRecord.read b with
    | none => none
    | some (.error e) => some (.error e)
    | some (.ok (r, b1)) =>
      match read_records n b1 with
      | none => none
      | some (.error e) => some (.error e)
      | some (.ok (rs, b2)) => some (.ok (r :: rs, b2))

/-- `DnsPacket::from_buffer`. -/
def from_buffer (b : BytePacketBuffer) : Option (Except String (DnsPacket × BytePacketBuffer)) :=
  match DnsHeader.read b with
  | .error e => some (.error e)
  | .ok (h, b1) =>
    match read_questions h.questions b1 with
    | none => none
    | some (.error e) => some (.error e)
    | some (.ok (qs, b2)) =>
      match read_records h.answers b2 with
      | none => none
      | some (.error e) => some (.error e)
      | some (.ok (ans, b3)) =>
        match read_records h.authoritative_entries b3 with
        | none => none
        | some (.error e) => some (.error e)
        | some (.ok (auth, b4)) =>
          match read_records h.resource_entries b4 with
          | none => none
          | some (.error e) => some (.error e)
          | some (.ok (res, b5)) =>
            some (.ok ({ header := h, questions := qs, answers := ans,
                         authorities := auth, resources := res }, b5))

/-- The `for q in &self.questions { q.write(buffer)?; }` loop. -/
def write_questions : List DnsQuestion → BytePacketBuffer → Except String BytePacketBuffer
  | [], b => .ok b
  | q :: qs, b =>
    match q.write b with
    | .error e => .error e
    | .ok b1 => write_questions qs b1

/-- A `for r in &list { r.write(buffer)?; }` loop (the returned size is
discarded, as in the source). -/
def write_records : List DnsRecord → BytePacketBuffer → Except String BytePacketBuffer
  | [], b => .ok b
  | r :: rs, b =>
    match r.write b with
    | .error e => .error e
    | .ok (_, b1) => write_records rs b1

/-- `DnsPacket::write`: overwrite the four header counts from the actual
section lengths (`.len() as u16`), then header, questions and the three
record sections in order. -/
def write (m : DnsPacket) (b : BytePacketBuffer) : Except String BytePacketBuffer :=
  let h := { m.header with
             questions := m.questions.length % 65536
             answers := m.answers.length % 65536
             authoritative_entries := m.authorities.length % 65536
             resource_entries := m.resources.length % 65536 }
  match h.write b with
  | .error e => .error e
  | .ok b1 =>
    match write_questions m.questions b1 with
    | .error e => .error e
    | .ok b2 =>
      match write_records m.answers b2 with
      | .error e => .error e
      | .ok b3 =>
        match write_records m.authorities b3 with
        | .error e => .error e
        | .ok b4 => write_records m.resources b4

end DnsPacket

/-! ## Specification-side helpers (used only to state and prove theorems) -/

/-- ASCII bytes of a literal string (for readable expected outputs). -/
def strBytes (s : String) : List Nat := s.data.map (fun c => c.toNat)

/-- Walk the label chain at `pos` without following jumps, mirroring the
bounds checks of `read_qname`: `.inl p` = the first compression-pointer
byte sits at `p`; `.inr q` = the terminating zero byte sits at `q`;
`none` = the walk runs out of buffer (in which case `read_qname` errors). -/
def scanName (buf : List Nat) : Nat → Nat → Option (Nat ⊕ Nat)
  | 0, _ => none
  | fuel + 1, pos =>
    if pos ≥ 512 then none
    else
      let len := buf.getD pos 0
      if len &&& 0xC0 = 0xC0 then some (.inl pos)
      else if len = 0 then some (.inr pos)
      else if pos + 1 + len ≥ 512 then none
      else scanName buf fuel (pos + 1 + len)

/-- The dot-separated labels of a name (`""` has one empty label, like
Rust's `split('.')`). -/
def labelsOf : List Nat → List (List Nat)
  | [] => [[]]
  | c :: r =>
    if c = 46 then [] :: labelsOf r
    else
      match labelsOf r with
      | [] => [[c]]
      | h :: t => (c :: h) :: t

/-- Wire encoding of one label: length byte then the raw bytes (`as u8`). -/
def encLabel (l : List Nat) : List Nat := (l.length % 256) :: l.map (· % 256)

/-- Wire encoding `write_qname` produces: every label as `encLabel`,
then the zero terminator. -/
def encQname (n : List Nat) : List Nat := ((labelsOf n).map encLabel).flatten ++ [0]

/-- The two big-endian bytes `write_u16` emits. -/
def encU16 (v : Nat) : List Nat := [(v >>> 8) % 256, (v &&& 0xFF) % 256]

/-- The four big-endian bytes `write_u32` emits. -/
def encU32 (v : Nat) : List Nat :=
  [((v >>> 24) &&& 0xFF) % 256, ((v >>> 16) &&& 0xFF) % 256,
   ((v >>> 8) &&& 0xFF) % 256, ((v >>> 0) &&& 0xFF) % 256]

/-- The 12 header bytes `DnsHeader::write` emits. -/
def encHeader (h : DnsHeader) : List Nat :=
  encU16 h.id ++
  [(h.recursion_desired.toNat |||
      (h.truncate_message.toNat <<< 1) |||
      (h.authoritative_answer.toNat <<< 2) |||
      ((h.opcode <<< 3) % 256) |||
      (h.response.toNat <<< 7)) % 256] ++
  [(h.rescode.toNat |||
      (h.checking_disabled.toNat <<< 4) |||
      (h.authed_data.toNat <<< 5) |||
      (h.z.toNat <<< 6) |||
      (h.recursion_available.toNat <<< 7)) % 256] ++
  encU16 h.questions ++ encU16 h.answers ++
  encU16 h.authoritative_entries ++ encU16 h.resource_entries

/-- The bytes `DnsQuestion::write` emits. -/
def encQuestion (q : DnsQuestion) : List Nat :=
  encQname q.name ++ encU16 q.qtype.to_num ++ encU16 1

/-- The bytes `DnsRecord::write` emits (an `UNKNOWN` record emits none). -/
def encRecord : DnsRecord → List Nat
  | .A domain addr ttl =>
    encQname domain ++ encU16 QueryType.A.to_num ++ encU16 1 ++ encU32 ttl ++
    encU16 4 ++ [addr.o0 % 256, addr.o1 % 256, addr.o2 % 256, addr.o3 % 256]
  | .UNKNOWN _ _ _ _ => []

/-- The bytes `DnsPacket::write` emits. -/
def encPacket (m : DnsPacket) : List Nat :=
  encHeader { m.header with
              questions := m.questions.length % 65536
              answers := m.answers.length % 65536
              authoritative_entries := m.authorities.length % 65536
              resource_entries := m.resources.length % 65536 } ++
  (m.questions.map encQuestion).flatten ++
  (m.answers.map encRecord).flatten ++
  (m.authorities.map encRecord).flatten ++
  (m.resources.map encRecord).flatten

/-- Overwrite `buf[p..p+|bs|]` with `bs` (no length growth, like `List.set`). -/
def listWrite : List Nat → Nat → List Nat → List Nat
  | buf, _, [] => buf
  | buf, p, v :: vs => listWrite (buf.set p v) (p + 1) vs

/-- The buffer state after appending `bs` at the cursor. -/
def appendB (b : BytePacketBuffer) (bs : List Nat) : BytePacketBuffer :=
  { buf := listWrite b.buf b.pos bs, pos := b.pos + bs.length }

/-- `bs` is the byte content of `buf` at positions `p .. p + |bs|`. -/
def bytesAt (buf : List Nat) (p : Nat) (bs : List Nat) : Prop :=
  ∀ i, i < bs.length → buf.getD (p + i) 0 = bs.getD i 0

/-- Labels are structurally wire-safe: nonempty and at most 63 bytes. -/
def goodLabels (n : List Nat) : Prop :=
  ∀ l ∈ labelsOf n, 1 ≤ l.length ∧ l.length ≤ 63

/-- Bytes whose read-back is literally identical: ASCII and not an
uppercase letter (read-side lowercasing is the identity on them). -/
def lowerStable (n : List Nat) : Prop :=
  ∀ c ∈ n, c < 128 ∧ ¬(65 ≤ c ∧ c ≤ 90)

/-- The address/TTL payload of a record (what the round-trip claim
compares for answers). -/
def recAddrTtl : DnsRecord → Option (Ipv4 × Nat)
  | .A _ addr ttl => some (addr, ttl)
  | .UNKNOWN _ _ _ _ => none

/-- Is this record the `A` variant? -/
def DnsRecord.isA : DnsRecord → Prop
  | .A _ _ _ => True
  | .UNKNOWN _ _ _ _ => False

/-- Is this record the `UNKNOWN` variant? (decidable, for witnesses) -/
def DnsRecord.isUnknown : DnsRecord → Bool
  | .A _ _ _ => false
  | .UNKNOWN _ _ _ _ => true

/-- `[3]www[6]google[3]com[0]` — the 16 wire bytes of `www.google.com`. -/
def googleBytes : List Nat :=
  [3, 119, 119, 119, 6, 103, 111, 111, 103, 108, 101, 3, 99, 111, 109, 0]

/-- A buffer holding `[3]www[6]google[3]com[0]` at offset 0, cursor at 0. -/
def googleBuf : BytePacketBuffer :=
  { buf := googleBytes ++ List.replicate 496 0, pos := 0 }

/-- The same name at offset 0 plus a 2-byte pointer `C0 00` at offset 20,
cursor at 20. -/
def ptrBuf : BytePacketBuffer :=
  { buf := googleBytes ++ List.replicate 4 0 ++ [0xC0, 0x00] ++ List.replicate 490 0,
    pos := 20 }

/-- A cyclic pointer chain: offset 0 → 2 → 4 → 0 → … forever. -/
def cycleBuf : BytePacketBuffer :=
  { buf := [0xC0, 2, 0xC0, 4, 0xC0, 0] ++ List.replicate 506 0, pos := 0 }

/-- A resource record `[1]a[0]`, type 99, class 1, TTL 0, rdlength 10,
ten payload bytes — the unknown-record-skip test vector. -/
def c8Buf : BytePacketBuffer :=
  { buf := [1, 97, 0, 0, 99, 0, 1, 0, 0, 0, 0, 0, 10,
            1, 2, 3, 4, 5, 6, 7, 8, 9, 10] ++ List.replicate 489 0,
    pos := 0 }

/-- Tail-recursive spec encoding mirroring `write_qname`'s loop: `cur`
is the label accumulated so far, the argument the remaining characters. -/
def encQnameRest (cur : List Nat) : List Nat → List Nat
  | [] => (cur.length % 256) :: (cur.map (· % 256) ++ [0])
  | c :: rest =>
    if c = 46 then (cur.length % 256) :: (cur.map (· % 256) ++ encQnameRest [] rest)
    else encQnameRest (cur ++ [c]) rest

/-- Join labels with dots (inverse of `labelsOf`). -/
def joinDots : List (List Nat) → List Nat
  | [] => []
  | [l] => l
  | l :: ls => l ++ 46 :: joinDots ls

/-- What the `read_qname` loop appends to `out0` when it walks the
given (already stored) labels with the given current delimiter. -/
def outAppend : List Nat → List (List Nat) → List Nat → List Nat
  | _, [], out0 => out0
  | delim, l :: ls, out0 => outAppend [46] ls (out0 ++ delim ++ l.map toLowerByte)

/-- A concrete well-formed message: one `A` question and one `A` answer
for `www.google.com`. -/
def c5msg : DnsPacket :=
  { header := DnsHeader.new
    questions := [DnsQuestion.new (strBytes "www.google.com") .A]
    answers := [.A (strBytes "www.google.com") ⟨216, 58, 211, 142⟩ 293]
    authorities := []
    resources := [] }

/-- The buffer `c5msg.write` produces from a fresh buffer. -/
def c5buf : BytePacketBuffer := appendB BytePacketBuffer.new (encPacket c5msg)

/-- A message with an UPPERCASE question name (labels all ≤ 63 bytes,
records all `A` — vacuously). -/
def c5bad : DnsPacket :=
  { header := DnsHeader.new
    questions := [DnsQuestion.new (strBytes "WWW") .A]
    answers := [], authorities := [], resources := [] }

/-- The buffer `c5bad.write` produces from a fresh buffer. -/
def c5badbuf : BytePacketBuffer := appendB BytePacketBuffer.new (encPacket c5bad)

/-- A message whose single answer is an `UNKNOWN` record. -/
def c10msg : DnsPacket :=
  { header := DnsHeader.new
    questions := []
    answers := [.UNKNOWN (strBytes "x") 99 0 10]
    authorities := [], resources := [] }

/-- The buffer `c10msg.write` produces from a fresh buffer. -/
def c10wb : BytePacketBuffer := appendB BytePacketBuffer.new (encPacket c10msg)

/-! ## Characterization lemmas for the cursor operations -/

theorem read_eq_ok (b : BytePacketBuffer) (h : b.pos < 512) :
    b.read = .ok (b.buf.getD b.pos 0, { b with pos := b.pos + 1 }) := by
  unfold BytePacketBuffer.read; rw [if_neg (by omega)]

theorem read_eq_err (b : BytePacketBuffer) (h : 512 ≤ b.pos) :
    b.read = .error "End of buffer (read function)" := by
  unfold BytePacketBuffer.read; rw [if_pos (by omega)]

theorem write_eq_ok (b : BytePacketBuffer) (v : Nat) (h : b.pos < 512) :
    b.write v = .ok { buf := b.buf.set b.pos (v % 256), pos := b.pos + 1 } := by
  unfold BytePacketBuffer.write; rw [if_neg (by omega)]

theorem write_eq_err (b : BytePacketBuffer) (v : Nat) (h : 512 ≤ b.pos) :
    b.write v = .error "End of buffer (write function)" := by
  unfold BytePacketBuffer.write; rw [if_pos (by omega)]

theorem get_eq_ok (b : BytePacketBuffer) (pos : Nat) (h : pos < 512) :
    b.get pos = .ok (b.buf.getD pos 0) := by
  unfold BytePacketBuffer.get; rw [if_neg (by omega)]

theorem seek_eq_ok (b : BytePacketBuffer) (pos : Nat) (h : pos < b.buf.length) :
    b.seek pos = .ok { b with pos := pos } := by
  unfold BytePacketBuffer.seek; rw [if_pos h]

theorem get_range_eq_ok (b : BytePacketBuffer) (start len : Nat) (h : start + len < 512) :
    b.get_range start len = .ok ((b.buf.drop start).take len) := by
  unfold BytePacketBuffer.get_range; rw [if_neg (by omega)]

theorem read_u16_ok_iff {b : BytePacketBuffer} {v : Nat} {b' : BytePacketBuffer} :
    b.read_u16 = .ok (v, b') ↔
      b.pos + 2 ≤ 512 ∧ v = ((b.buf.getD b.pos 0) <<< 8) ||| b.buf.getD (b.pos + 1) 0 ∧
      b' = { b with pos := b.pos + 2 } := by
  constructor
  · intro h
    unfold BytePacketBuffer.read_u16 at h
    by_cases hp : b.pos < 512
    · rw [read_eq_ok b hp] at h
      dsimp only at h
      by_cases hp2 : b.pos + 1 < 512
      · rw [read_eq_ok { b with pos := b.pos + 1 } (by dsimp only; omega)] at h
        dsimp only at h
        injection h with h
        injection h with hv hb
        exact ⟨by omega, hv.symm, hb.symm⟩
      · rw [read_eq_err { b with pos := b.pos + 1 } (by dsimp only; omega)] at h
        simp at h
    · rw [read_eq_err b (by omega)] at h
      simp at h
  · intro ⟨hlt, hv, hb⟩
    subst hv; subst hb
    unfold BytePacketBuffer.read_u16
    rw [read_eq_ok b (by omega)]
    dsimp only
    rw [read_eq_ok { b with pos := b.pos + 1 } (by dsimp only; omega)]

theorem read_u32_ok_iff {b : BytePacketBuffer} {v : Nat} {b' : BytePacketBuffer} :
    b.read_u32 = .ok (v, b') ↔
      b.pos + 4 ≤ 512 ∧
      v = ((b.buf.getD b.pos 0) <<< 24) ||| ((b.buf.getD (b.pos + 1) 0) <<< 16) |||
          ((b.buf.getD (b.pos + 2) 0) <<< 8) ||| ((b.buf.getD (b.pos + 3) 0) <<< 0) ∧
      b' = { b with pos := b.pos + 4 } := by
  constructor
  · intro h
    unfold BytePacketBuffer.read_u32 at h
    by_cases hp : b.pos < 512
    · rw [read_eq_ok b hp] at h
      dsimp only at h
      by_cases hp2 : b.pos + 1 < 512
      · rw [read_eq_ok { b with pos := b.pos + 1 } (by dsimp only; omega)] at h
        dsimp only at h
        by_cases hp3 : b.pos + 2 < 512
        · rw [read_eq_ok { b with pos := b.pos + 1 + 1 } (by dsimp only; omega)] at h
          dsimp only at h
          by_cases hp4 : b.pos + 3 < 512
          · rw [read_eq_ok { b with pos := b.pos + 1 + 1 + 1 } (by dsimp only; omega)] at h
            dsimp only at h
            injection h with h
            injection h with hv hb
            exact ⟨by omega, hv.symm, hb.symm⟩
          · rw [read_eq_err { b with pos := b.pos + 1 + 1 + 1 } (by dsimp only; omega)] at h
            simp at h
        · rw [read_eq_err { b with pos := b.pos + 1 + 1 } (by dsimp only; omega)] at h
          simp at h
      · rw [read_eq_err { b with pos := b.pos + 1 } (by dsimp only; omega)] at h
        simp at h
    · rw [read_eq_err b (by omega)] at h
      simp at h
  · intro ⟨hlt, hv, hb⟩
    subst hv; subst hb
    unfold BytePacketBuffer.read_u32
    rw [read_eq_ok b (by omega)]
    dsimp only
    rw [read_eq_ok { b with pos := b.pos + 1 } (by dsimp only; omega)]
    dsimp only
    rw [read_eq_ok { b with pos := b.pos + 1 + 1 } (by dsimp only; omega)]
    dsimp only
    rw [read_eq_ok { b with pos := b.pos + 1 + 1 + 1 } (by dsimp only; omega)]

/-! ## C3: `step` / `get_range` bounds (off-by-one against the claim) -/

/-- **C3 counterexample.** The claim says `step(n)` succeeds whenever
`pos + n ≤ 512` and `get_range(start, len)` succeeds whenever
`start + len ≤ 512`; but at `pos = 510`, `step 2` fails, and
`get_range 508 4` fails, although both sums equal `512 ≤ 512` and no
byte at or beyond index 512 would be touched. -/
theorem step_get_range_claim_false :
    ({ BytePacketBuffer.new with pos := 510 } : BytePacketBuffer).step 2 =
        .error "Buffer overflow" ∧
    510 + 2 ≤ 512 ∧
    BytePacketBuffer.new.get_range 508 4 = .error "End of buffer (get_range function)" ∧
    508 + 4 ≤ 512 := by
  refine ⟨?_, by omega, ?_, by omega⟩ <;> rfl

/-- **C3 (amended).** On a 512-byte buffer, `step n` succeeds (advancing
the offset) exactly when `pos + n < 512`, and `get_range start len`
succeeds (returning `buf[start..start+len]`) exactly when
`start + len < 512`; otherwise each fails with its out-of-bounds error. -/
theorem step_get_range_amended :
    ∀ (b : BytePacketBuffer) (n start len : Nat), b.buf.length = 512 →
      (b.step n = if b.pos + n < 512 then .ok { b with pos := b.pos + n }
                  else .error "Buffer overflow") ∧
      (b.get_range start len =
        if start + len < 512 then .ok ((b.buf.drop start).take len)
        else .error "End of buffer (get_range function)") := by
  intro b n start len hlen
  constructor
  · unfold BytePacketBuffer.step
    rw [hlen]
  · unfold BytePacketBuffer.get_range
    split <;> split <;> first | rfl | omega

/-- Witness for `step_get_range_amended` at a concrete input. -/
theorem step_get_range_amended_witness :
    (BytePacketBuffer.new.step 1 =
      if BytePacketBuffer.new.pos + 1 < 512
      then .ok { BytePacketBuffer.new with pos := BytePacketBuffer.new.pos + 1 }
      else .error "Buffer overflow") ∧
    (BytePacketBuffer.new.get_range 0 1 =
      if 0 + 1 < 512 then .ok ((BytePacketBuffer.new.buf.drop 0).take 1)
      else .error "End of buffer (get_range function)") :=
  step_get_range_amended BytePacketBuffer.new 1 0 1 rfl

/-! ## C4: `set` / `set_u16` have no bounds check at all -/

/-- **C4.** For every position at or beyond 512, `set` and `set_u16` do
not return an `OutOfBounds` error: they index the 512-byte array out of
range, which in the source is a Rust panic (modelled by `none`), so the
claimed error reporting does not happen. -/
theorem set_oob_panics :
    ∀ (b : BytePacketBuffer) (pos val : Nat), b.buf.length = 512 → 512 ≤ pos →
      b.set pos val = none ∧ b.set_u16 pos val = none := by
  intro b pos val hlen hpos
  have hset : ∀ v, b.set pos v = none := by
    intro v
    unfold BytePacketBuffer.set
    rw [hlen, if_neg (by omega)]
  refine ⟨hset val, ?_⟩
  unfold BytePacketBuffer.set_u16
  rw [hset]

/-- Witness for `set_oob_panics`: patching byte 512 of a fresh buffer. -/
theorem set_oob_panics_witness :
    BytePacketBuffer.new.set 512 7 = none ∧ BytePacketBuffer.new.set_u16 512 7 = none :=
  set_oob_panics BytePacketBuffer.new 512 7 rfl (by omega)

/-! ## C8: unknown-record decoding skips exactly `data_len` bytes -/

/-- **C8.** Decoding a resource record whose type code is 99 and whose
declared data length is 10 yields `UNKNOWN{qtype := 99, data_len := 10}`
(with the name and TTL read in place) and leaves the cursor exactly 10
bytes past the position reached after the name, type, class, TTL and
rdlength fields — not 0 bytes and not more. -/
theorem unknown_record_skip :
    ∀ (b b1 b2 b3 b4 b5 : BytePacketBuffer) (dom : List Nat) (cls ttl : Nat),
      b.read_qname [] = some (.ok (b1, dom)) →
      b1.read_u16 = .ok (99, b2) →
      b2.read_u16 = .ok (cls, b3) →
      b3.read_u32 = .ok (ttl, b4) →
      b4.read_u16 = .ok (10, b5) →
      b5.pos + 10 < b5.buf.length →
      DnsRecord.read b = some (.ok (.UNKNOWN dom 99 ttl 10, { b5 with pos := b5.pos + 10 })) := by
  intro b b1 b2 b3 b4 b5 dom cls ttl h1 h2 h3 h4 h5 hfit
  unfold DnsRecord.read
  rw [h1]; dsimp only
  rw [h2]; dsimp only
  rw [h3]; dsimp only
  rw [h4]; dsimp only
  rw [h5]; dsimp only
  have h99 : QueryType.from_num 99 = .UNKNOWN 99 := rfl
  rw [h99]
  dsimp only
  unfold BytePacketBuffer.step
  rw [if_pos hfit]

/-- Witness for `unknown_record_skip`: the concrete record `[1]a[0]`,
type 99, rdlength 10 — the cursor lands at 13 + 10 = 23. -/
theorem unknown_record_skip_witness :
    DnsRecord.read c8Buf =
      some (.ok (.UNKNOWN [97] 99 0 10, { buf := c8Buf.buf, pos := 13 + 10 })) :=
  unknown_record_skip c8Buf
    { buf := c8Buf.buf, pos := 3 } { buf := c8Buf.buf, pos := 5 }
    { buf := c8Buf.buf, pos := 7 } { buf := c8Buf.buf, pos := 11 }
    { buf := c8Buf.buf, pos := 13 } [97] 1 0
    rfl rfl rfl rfl rfl (by norm_num [c8Buf])

/-! ## C1: termination of `read_qname` and the jump guard -/

/-- Fuel bound for the `read_qname` loop: the measure
`(6 - jumps) * 520 + (520 - min pos 520)` strictly decreases on every
non-terminal iteration (a jump consumes one of the at most 6 permitted
jumps; a label strictly advances the local position, which stays below
512 while reads succeed). -/
theorem read_qname_loop_isSome :
    ∀ (fuel : Nat) (b : BytePacketBuffer) (pos : Nat) (jumped : Bool) (jp : Nat)
      (delim outstr : List Nat),
      (6 - jp) * 520 + (520 - min pos 520) < fuel →
      (BytePacketBuffer.read_qname_loop b fuel pos jumped jp delim outstr).isSome = true := by
  intro fuel
  induction fuel with
  | zero => intro b pos jumped jp delim outstr h; omega
  | succ fuel ih =>
    intro b pos jumped jp delim outstr h
    rw [BytePacketBuffer.read_qname_loop]
    split
    · rfl
    · rename_i hjp
      rw [BytePacketBuffer.max_jumps] at hjp
      cases hget : b.get pos with
      | error e => rfl
      | ok len =>
        have hpos : pos < 512 := by
          unfold BytePacketBuffer.get at hget
          split at hget
          · simp at hget
          · omega
        dsimp only
        split
        · cases hseek : (if jumped then Except.ok b else b.seek (pos + 2)) with
          | error e => rfl
          | ok b1 =>
            dsimp only
            cases hget2 : b1.get (pos + 1) with
            | error e => rfl
            | ok b2 =>
              dsimp only
              apply ih
              omega
        · split
          · split
            · rfl
            · cases b.seek (pos + 1) <;> rfl
          · cases hgr : b.get_range (pos + 1) len with
            | error e => rfl
            | ok s =>
              rename_i hptr hlen0
              have hb : pos + 1 + len < 512 := by
                unfold BytePacketBuffer.get_range at hgr
                split at hgr
                · simp at hgr
                · omega
              apply ih
              omega

/-- **C1.** For every buffer content and every starting position,
`read_qname` terminates — with the fuel `qname_fuel` the loop never
runs out, so it always returns `Ok` or an error.  Moreover, a name
whose resolution needs more than 5 compression-pointer jumps fails with
the `TooManyJumps` error (`"Limit of 5 jumps exceeded"`) rather than
hanging: the cyclic chain 0 → 2 → 4 → 0 → … does exactly that. -/
theorem read_qname_terminates :
    (∀ (b : BytePacketBuffer) (outstr : List Nat), (b.read_qname outstr).isSome = true) ∧
    cycleBuf.read_qname [] = some (.error "Limit of 5 jumps exceeded") := by
  constructor
  · intro b outstr
    unfold BytePacketBuffer.read_qname BytePacketBuffer.qname_fuel
    apply read_qname_loop_isSome
    omega
  · rfl

/-! ## C2: where `read_qname` leaves the shared position -/

/-- Once a jump has occurred (`jumped = true`), the loop never modifies
the buffer again: the first-jump `seek` is the only state change, so
chained jumps never move the shared position. -/
theorem read_qname_loop_jumped_fix :
    ∀ (fuel : Nat) (b : BytePacketBuffer) (pos jp : Nat) (delim outstr : List Nat)
      (b' : BytePacketBuffer) (out : List Nat),
      BytePacketBuffer.read_qname_loop b fuel pos true jp delim outstr =
        some (.ok (b', out)) → b' = b := by
  intro fuel
  induction fuel with
  | zero =>
    intro b pos jp delim outstr b' out h
    rw [BytePacketBuffer.read_qname_loop] at h
    simp at h
  | succ fuel ih =>
    intro b pos jp delim outstr b' out h
    rw [BytePacketBuffer.read_qname_loop] at h
    split at h
    · simp at h
    · cases hget : b.get pos with
      | error e => rw [hget] at h; simp at h
      | ok len =>
        rw [hget] at h
        dsimp only at h
        split at h
        · rw [if_pos rfl] at h
          dsimp only at h
          cases hget2 : b.get (pos + 1) with
          | error e => rw [hget2] at h; simp at h
          | ok b2 =>
            rw [hget2] at h
            dsimp only at h
            exact ih b _ _ _ _ _ _ h
        · split at h
          · rw [if_pos rfl] at h
            simp only [Option.some.injEq, Except.ok.injEq, Prod.mk.injEq] at h
            exact h.1.symm
          · cases hgr : b.get_range (pos + 1) len with
            | error e => rw [hgr] at h; simp at h
            | ok s =>
              rw [hgr] at h
              dsimp only at h
              exact ih b _ _ _ _ _ _ h

/-- Starting un-jumped, a successful `read_qname` loop leaves the bytes
untouched and puts the shared position (a) two bytes past the first
compression pointer of the name when there is one (`scanName = .inl p`),
or (b) just past the terminating zero byte when there is none
(`scanName = .inr q`). -/
theorem read_qname_loop_scan :
    ∀ (fuel : Nat) (b : BytePacketBuffer) (pos : Nat) (delim outstr : List Nat)
      (b' : BytePacketBuffer) (out : List Nat),
      BytePacketBuffer.read_qname_loop b fuel pos false 0 delim outstr =
        some (.ok (b', out)) →
      b'.buf = b.buf ∧
      ∃ r, scanName b.buf fuel pos = some r ∧
        (match r with
         | .inl p => b'.pos = p + 2
         | .inr q => b'.pos = q + 1) := by
  intro fuel
  induction fuel with
  | zero =>
    intro b pos delim outstr b' out h
    rw [BytePacketBuffer.read_qname_loop] at h
    simp at h
  | succ fuel ih =>
    intro b pos delim outstr b' out h
    rw [BytePacketBuffer.read_qname_loop] at h
    split at h
    · simp at h
    · cases hget : b.get pos with
      | error e => rw [hget] at h; simp at h
      | ok len =>
        have hinv : pos < 512 ∧ len = b.buf.getD pos 0 := by
          unfold BytePacketBuffer.get at hget
          split at hget
          · simp at hget
          · rename_i hc
            injection hget with hv
            exact ⟨by omega, hv.symm⟩
        obtain ⟨hpos, hlen⟩ := hinv
        rw [hget] at h
        dsimp only at h
        split at h
        · -- first byte is a compression pointer
          rename_i hptr
          rw [if_neg (by simp)] at h
          cases hseek : b.seek (pos + 2) with
          | error e => rw [hseek] at h; simp at h
          | ok b1 =>
            rw [hseek] at h
            dsimp only at h
            have hb1 : b1 = { b with pos := pos + 2 } := by
              unfold BytePacketBuffer.seek at hseek
              split at hseek
              · injection hseek with hv; exact hv.symm
              · simp at hseek
            cases hget2 : b1.get (pos + 1) with
            | error e => rw [hget2] at h; simp at h
            | ok b2 =>
              rw [hget2] at h
              dsimp only at h
              have hfix := read_qname_loop_jumped_fix fuel b1 _ _ _ _ _ _ h
              subst hfix
              refine ⟨by rw [hb1], .inl pos, ?_, ?_⟩
              · rw [scanName, if_neg (by omega : ¬ pos ≥ 512)]
                dsimp only
                rw [← hlen, if_pos hptr]
              · rw [hb1]
        · split at h
          · -- terminating zero byte
            rename_i hnp hl0
            rw [if_neg (by simp)] at h
            cases hseek : b.seek (pos + 1) with
            | error e => rw [hseek] at h; simp at h
            | ok b1 =>
              rw [hseek] at h
              simp only [Option.some.injEq, Except.ok.injEq, Prod.mk.injEq] at h
              have hb1 : b1 = { b with pos := pos + 1 } := by
                unfold BytePacketBuffer.seek at hseek
                split at hseek
                · injection hseek with hv; exact hv.symm
                · simp at hseek
              refine ⟨?_, .inr pos, ?_, ?_⟩
              · rw [← h.1, hb1]
              · rw [scanName, if_neg (by omega : ¬ pos ≥ 512)]
                dsimp only
                rw [← hlen, if_neg hnp, if_pos hl0]
              · rw [← h.1, hb1]
          · -- an ordinary label: advance and recurse
            rename_i hnp hl0
            cases hgr : b.get_range (pos + 1) len with
            | error e => rw [hgr] at h; simp at h
            | ok s =>
              rw [hgr] at h
              dsimp only at h
              have hlt : pos + 1 + len < 512 := by
                unfold BytePacketBuffer.get_range at hgr
                split at hgr
                · simp at hgr
                · rename_i hc; omega
              obtain ⟨hbuf, r, hscan, hr⟩ := ih b (pos + 1 + len) _ _ _ _ h
              refine ⟨hbuf, r, ?_, hr⟩
              rw [scanName, if_neg (by omega : ¬ pos ≥ 512)]
              dsimp only
              rw [← hlen, if_neg hnp, if_neg hl0, if_neg (by omega : ¬ pos + 1 + len ≥ 512)]
              exact hscan

/-- **C2.** A successful `read_qname` leaves the buffer bytes unmodified
and the shared position as follows: if the name contains a compression
pointer (so at least one jump occurs), the shared position ends exactly
2 bytes past the first pointer (`scanName = .inl p`, chained jumps never
move it again); if no jump occurs, it ends just past the terminating
zero byte (`scanName = .inr q`).  In particular, decoding the name at
offset 20 of `ptrBuf` — a single 2-byte pointer to the valid name at
offset 0 — yields `"www.google.com"`, advances the shared position by
exactly 2 bytes (20 → 22), and leaves the bytes unmodified. -/
theorem read_qname_shared_pos :
    (∀ (b : BytePacketBuffer) (outstr : List Nat) (b' : BytePacketBuffer) (out : List Nat),
       b.read_qname outstr = some (.ok (b', out)) →
       b'.buf = b.buf ∧
       ∃ r, scanName b.buf BytePacketBuffer.qname_fuel b.pos = some r ∧
         (match r with
          | .inl p => b'.pos = p + 2
          | .inr q => b'.pos = q + 1)) ∧
    ptrBuf.read_qname [] =
      some (.ok ({ buf := ptrBuf.buf, pos := 22 }, strBytes "www.google.com")) := by
  constructor
  · intro b outstr b' out h
    exact read_qname_loop_scan BytePacketBuffer.qname_fuel b b.pos [] outstr b' out h
  · rfl

/-- Witness for `read_qname_shared_pos`: its general part applied to the
concrete pointer buffer, the hypothesis discharged by the concrete part. -/
theorem read_qname_shared_pos_witness :
    ({ buf := ptrBuf.buf, pos := 22 } : BytePacketBuffer).buf = ptrBuf.buf ∧
    ∃ r, scanName ptrBuf.buf BytePacketBuffer.qname_fuel ptrBuf.pos = some r ∧
      (match r with
       | .inl p => ({ buf := ptrBuf.buf, pos := 22 } : BytePacketBuffer).pos = p + 2
       | .inr q => ({ buf := ptrBuf.buf, pos := 22 } : BytePacketBuffer).pos = q + 1) :=
  read_qname_shared_pos.1 ptrBuf [] { buf := ptrBuf.buf, pos := 22 }
    (strBytes "www.google.com") read_qname_shared_pos.2

/-! ## C7: plain label decoding -/

/-- **C7.** Decoding `[3]www[6]google[3]com[0]` from offset 0 produces
the byte string `"www.google.com"` (labels joined by `'.'`, no leading
dot) and advances the shared position by exactly 16 bytes, leaving the
bytes unmodified. -/
theorem read_qname_google :
    googleBuf.read_qname [] =
      some (.ok ({ buf := googleBuf.buf, pos := 16 }, strBytes "www.google.com")) := by
  rfl

/-! ## Byte-level write/read infrastructure -/

theorem listWrite_length : ∀ (bs buf : List Nat) (p : Nat),
    (listWrite buf p bs).length = buf.length := by
  intro bs
  induction bs with
  | nil => intro buf p; rfl
  | cons v vs ih =>
    intro buf p
    rw [listWrite, ih]
    simp

theorem listWrite_getD_lt : ∀ (bs buf : List Nat) (p i : Nat), i < p →
    (listWrite buf p bs).getD i 0 = buf.getD i 0 := by
  intro bs
  induction bs with
  | nil => intro buf p i h; rfl
  | cons v vs ih =>
    intro buf p i h
    rw [listWrite, ih _ _ _ (by omega)]
    simp [List.getElem?_set_ne (show p ≠ i by omega)]

theorem listWrite_getD_in : ∀ (bs buf : List Nat) (p i : Nat), i < bs.length →
    p + bs.length ≤ buf.length →
    (listWrite buf p bs).getD (p + i) 0 = bs.getD i 0 := by
  intro bs
  induction bs with
  | nil => intro buf p i h hf; simp at h
  | cons v vs ih =>
    intro buf p i h hf
    cases i with
    | zero =>
      rw [Nat.add_zero, listWrite, listWrite_getD_lt vs _ (p + 1) p (by omega)]
      have hp : p < buf.length := by simp at hf; omega
      simp [List.getElem?_set_self hp]
    | succ j =>
      rw [listWrite]
      have hrec := ih (buf.set p v) (p + 1) j (by simp at h ⊢; omega)
        (by simp at hf ⊢; omega)
      rw [show p + (j + 1) = p + 1 + j by omega, hrec]
      rfl

theorem listWrite_append : ∀ (xs ys buf : List Nat) (p : Nat),
    listWrite buf p (xs ++ ys) = listWrite (listWrite buf p xs) (p + xs.length) ys := by
  intro xs
  induction xs with
  | nil => intro ys buf p; rfl
  | cons v vs ih =>
    intro ys buf p
    rw [List.cons_append, listWrite, listWrite, ih]
    rw [show p + 1 + vs.length = p + (vs.length + 1) by omega]
    rfl

theorem appendB_appendB (b : BytePacketBuffer) (xs ys : List Nat) :
    appendB (appendB b xs) ys = appendB b (xs ++ ys) := by
  unfold appendB
  dsimp only
  rw [listWrite_append]
  simp [Nat.add_assoc]

theorem appendB_length (b : BytePacketBuffer) (bs : List Nat) :
    (appendB b bs).buf.length = b.buf.length := listWrite_length bs b.buf b.pos

theorem appendB_pos (b : BytePacketBuffer) (bs : List Nat) :
    (appendB b bs).pos = b.pos + bs.length := rfl

theorem bytesAt_listWrite (bs buf : List Nat) (p : Nat) (h : p + bs.length ≤ buf.length) :
    bytesAt (listWrite buf p bs) p bs :=
  fun i hi => listWrite_getD_in bs buf p i hi h

theorem bytesAt_append {buf : List Nat} {p : Nat} {xs ys : List Nat}
    (h : bytesAt buf p (xs ++ ys)) :
    bytesAt buf p xs ∧ bytesAt buf (p + xs.length) ys := by
  constructor
  · intro i hi
    have := h i (by simp; omega)
    rwa [List.getD_append _ _ _ _ (by omega)] at this
  · intro i hi
    have := h (xs.length + i) (by simp; omega)
    rw [show p + (xs.length + i) = p + xs.length + i by omega] at this
    rwa [List.getD_append_right _ _ _ _ (by omega), Nat.add_sub_cancel_left] at this

theorem bytesAt_appendB (b : BytePacketBuffer) (bs : List Nat)
    (h : b.pos + bs.length ≤ b.buf.length) :
    bytesAt (appendB b bs).buf b.pos bs :=
  bytesAt_listWrite bs b.buf b.pos h

theorem read_u16_at {b : BytePacketBuffer} {x y : Nat} (hb : bytesAt b.buf b.pos [x, y])
    (hfit : b.pos + 2 ≤ 512) :
    b.read_u16 = .ok ((x <<< 8) ||| y, { b with pos := b.pos + 2 }) := by
  apply read_u16_ok_iff.mpr
  refine ⟨hfit, ?_, rfl⟩
  have h0 := hb 0 (by simp)
  have h1 := hb 1 (by simp)
  rw [Nat.add_zero] at h0
  rw [h0, h1]
  rfl

theorem read_u32_at {b : BytePacketBuffer} {x0 x1 x2 x3 : Nat}
    (hb : bytesAt b.buf b.pos [x0, x1, x2, x3]) (hfit : b.pos + 4 ≤ 512) :
    b.read_u32 =
      .ok ((x0 <<< 24) ||| (x1 <<< 16) ||| (x2 <<< 8) ||| (x3 <<< 0),
           { b with pos := b.pos + 4 }) := by
  apply read_u32_ok_iff.mpr
  refine ⟨hfit, ?_, rfl⟩
  have h0 := hb 0 (by simp)
  have h1 := hb 1 (by simp)
  have h2 := hb 2 (by simp)
  have h3 := hb 3 (by simp)
  rw [Nat.add_zero] at h0
  rw [h0, h1, h2, h3]
  rfl

theorem write_u8_eq {b : BytePacketBuffer} (v : Nat) (h : b.pos < 512) :
    b.write_u8 v = .ok (appendB b [v % 256]) := by
  unfold BytePacketBuffer.write_u8
  rw [write_eq_ok b v h]
  rfl

theorem write_u16_eq {b : BytePacketBuffer} (v : Nat) (h : b.pos + 2 ≤ 512) :
    b.write_u16 v = .ok (appendB b (encU16 v)) := by
  unfold BytePacketBuffer.write_u16
  rw [write_eq_ok b _ (by omega)]
  dsimp only
  rw [write_eq_ok _ _ (by dsimp only; omega)]
  rfl

theorem write_u32_eq {b : BytePacketBuffer} (v : Nat) (h : b.pos + 4 ≤ 512) :
    b.write_u32 v = .ok (appendB b (encU32 v)) := by
  unfold BytePacketBuffer.write_u32
  rw [write_eq_ok b _ (by omega)]
  dsimp only
  rw [write_eq_ok _ _ (by dsimp only; omega)]
  dsimp only
  rw [write_eq_ok _ _ (by dsimp only; omega)]
  dsimp only
  rw [write_eq_ok _ _ (by dsimp only; omega)]
  rfl

/-! ## Bit-arithmetic toolkit for the packed header fields -/

theorem shl_or_eq_add {k a b : Nat} (hb : b < 2 ^ k) : (a <<< k) ||| b = 2 ^ k * a + b := by
  apply Nat.eq_of_testBit_eq
  intro i
  rw [Nat.testBit_or, Nat.testBit_shiftLeft, Nat.testBit_mul_pow_two_add a hb i]
  by_cases hik : i < k
  · rw [if_pos hik]
    simp [show ¬ i ≥ k by omega]
  · rw [if_neg hik]
    have h2 : b.testBit i = false :=
      Nat.testBit_lt_two_pow (lt_of_lt_of_le hb (Nat.pow_le_pow_right (by norm_num) (by omega)))
    simp [show i ≥ k by omega, h2]

theorem or_eq_add {k a b : Nat} (ha : a % 2 ^ k = 0) (hb : b < 2 ^ k) : a ||| b = a + b := by
  have hd : 2 ^ k * (a / 2 ^ k) = a := Nat.mul_div_cancel' (Nat.dvd_of_mod_eq_zero ha)
  calc a ||| b = ((a / 2 ^ k) <<< k) ||| b := by rw [Nat.shiftLeft_eq, Nat.mul_comm, hd]
    _ = 2 ^ k * (a / 2 ^ k) + b := shl_or_eq_add hb
    _ = a + b := by rw [hd]

theorem and_255 (x : Nat) : x &&& 0xFF = x % 256 := by
  have := Nat.and_pow_two_sub_one_eq_mod x 8
  norm_num at this
  exact this

theorem and_15 (x : Nat) : x &&& 0x0F = x % 16 := by
  have := Nat.and_pow_two_sub_one_eq_mod x 4
  norm_num at this
  exact this

theorem and_two_pow_pos_iff (x i : Nat) : (0 < x &&& (1 <<< i)) ↔ x / 2 ^ i % 2 = 1 := by
  rw [show (1 <<< i : Nat) = 2 ^ i by rw [Nat.shiftLeft_eq, Nat.one_mul], Nat.and_two_pow,
    Nat.testBit_to_div_mod]
  by_cases h : x / 2 ^ i % 2 = 1
  · simp [h, Nat.two_pow_pos]
  · simp [h]

theorem u16_round (v : Nat) (hv : v < 65536) :
    ((((v >>> 8) % 256) <<< 8) ||| ((v &&& 0xFF) % 256)) = v := by
  rw [Nat.shiftRight_eq_div_pow, and_255,
    shl_or_eq_add (show v % 256 % 256 < 2 ^ 8 by norm_num [Nat.mod_lt])]
  have h28 : (2 : Nat) ^ 8 = 256 := by norm_num
  rw [h28]
  omega

theorem u16_split_hi {x y : Nat} (hx : x < 256) (hy : y < 256) :
    ((x <<< 8) ||| y) >>> 8 = x := by
  rw [shl_or_eq_add (show y < 2 ^ 8 by norm_num; omega), Nat.shiftRight_eq_div_pow]
  have h28 : (2 : Nat) ^ 8 = 256 := by norm_num
  rw [h28]
  omega

theorem u16_split_lo {x y : Nat} (hy : y < 256) :
    ((x <<< 8) ||| y) &&& 0xFF = y := by
  rw [shl_or_eq_add (show y < 2 ^ 8 by norm_num; omega), and_255]
  have h28 : (2 : Nat) ^ 8 = 256 := by norm_num
  rw [h28]
  omega

/-! ## Header encode/decode lemmas -/

theorem header_write_eq (h : DnsHeader) (b : BytePacketBuffer) (hfit : b.pos + 12 ≤ 512) :
    h.write b = .ok (appendB b (encHeader h)) := by
  unfold DnsHeader.write
  rw [write_u16_eq h.id (by omega)]
  dsimp only
  rw [write_u8_eq _ (by rw [appendB_pos]; simp [encU16]; omega)]
  dsimp only
  rw [appendB_appendB]
  rw [write_u8_eq _ (by rw [appendB_pos]; simp [encU16]; omega)]
  dsimp only
  rw [appendB_appendB]
  rw [write_u16_eq h.questions (by rw [appendB_pos]; simp [encU16]; omega)]
  dsimp only
  rw [appendB_appendB]
  rw [write_u16_eq h.answers (by rw [appendB_pos]; simp [encU16]; omega)]
  dsimp only
  rw [appendB_appendB]
  rw [write_u16_eq h.authoritative_entries (by rw [appendB_pos]; simp [encU16]; omega)]
  dsimp only
  rw [appendB_appendB]
  rw [write_u16_eq h.resource_entries (by rw [appendB_pos]; simp [encU16]; omega)]
  rw [appendB_appendB]
  rw [encHeader]

/-- The packed first flags byte as a plain sum (the bit fields are
disjoint once `opcode < 16`). -/
theorem flags1_sum : ∀ (rd tm aa rsp : Bool) (op : Nat), op < 16 →
    (rd.toNat ||| (tm.toNat <<< 1) ||| (aa.toNat <<< 2) ||| ((op <<< 3) % 256) |||
        (rsp.toNat <<< 7))
      = 128 * rsp.toNat + 8 * op + 4 * aa.toNat + 2 * tm.toNat + rd.toNat := by decide

/-- The packed second flags byte as a plain sum. -/
theorem flags2_sum : ∀ (cd ad z ra : Bool) (rc : Nat), rc < 16 →
    (rc ||| (cd.toNat <<< 4) ||| (ad.toNat <<< 5) ||| (z.toNat <<< 6) ||| (ra.toNat <<< 7))
      = 128 * ra.toNat + 64 * z.toNat + 32 * ad.toNat + 16 * cd.toNat + rc := by decide

/-- Unpacking the first flags byte recovers every field. -/
theorem byte1_fields : ∀ (rsp aa tm rd : Bool) (op : Nat), op < 16 →
    (decide (0 < (128 * rsp.toNat + 8 * op + 4 * aa.toNat + 2 * tm.toNat + rd.toNat) &&& (1 <<< 0)) = rd ∧
     decide (0 < (128 * rsp.toNat + 8 * op + 4 * aa.toNat + 2 * tm.toNat + rd.toNat) &&& (1 <<< 1)) = tm ∧
     decide (0 < (128 * rsp.toNat + 8 * op + 4 * aa.toNat + 2 * tm.toNat + rd.toNat) &&& (1 <<< 2)) = aa ∧
     ((128 * rsp.toNat + 8 * op + 4 * aa.toNat + 2 * tm.toNat + rd.toNat) >>> 3) &&& 0x0F = op ∧
     decide (0 < (128 * rsp.toNat + 8 * op + 4 * aa.toNat + 2 * tm.toNat + rd.toNat) &&& (1 <<< 7)) = rsp) := by
  decide

/-- Unpacking the second flags byte recovers every field. -/
theorem byte2_fields : ∀ (ra z ad cd : Bool) (rc : Nat), rc < 16 →
    ((128 * ra.toNat + 64 * z.toNat + 32 * ad.toNat + 16 * cd.toNat + rc) &&& 0x0F = rc ∧
     decide (0 < (128 * ra.toNat + 64 * z.toNat + 32 * ad.toNat + 16 * cd.toNat + rc) &&& (1 <<< 4)) = cd ∧
     decide (0 < (128 * ra.toNat + 64 * z.toNat + 32 * ad.toNat + 16 * cd.toNat + rc) &&& (1 <<< 5)) = ad ∧
     decide (0 < (128 * ra.toNat + 64 * z.toNat + 32 * ad.toNat + 16 * cd.toNat + rc) &&& (1 <<< 6)) = z ∧
     decide (0 < (128 * ra.toNat + 64 * z.toNat + 32 * ad.toNat + 16 * cd.toNat + rc) &&& (1 <<< 7)) = ra) := by
  decide

/-- `from_num` inverts the discriminant. -/
theorem from_num_toNat : ∀ rc : ResultCode, ResultCode.from_num rc.toNat = rc := by
  intro rc
  cases rc <;> rfl

/-- The discriminant is below 6. -/
theorem toNat_lt (rc : ResultCode) : rc.toNat < 6 := by
  cases rc <;> simp [ResultCode.toNat]

/-- Two adjacent single bytes merge into a pair. -/
theorem bytesAt_pair {buf : List Nat} {p x y : Nat}
    (h1 : bytesAt buf p [x]) (h2 : bytesAt buf (p + 1) [y]) : bytesAt buf p [x, y] := by
  intro i hi
  match i with
  | 0 => exact h1 0 (by simp)
  | 1 =>
    have := h2 0 (by simp)
    rwa [Nat.add_zero] at this

theorem header_read_at (h : DnsHeader) (b : BytePacketBuffer)
    (hbytes : bytesAt b.buf b.pos (encHeader h))
    (hfit : b.pos + 12 ≤ 512)
    (hop : h.opcode < 16) (hid : h.id < 65536)
    (hq : h.questions < 65536) (han : h.answers < 65536)
    (hau : h.authoritative_entries < 65536) (hre : h.resource_entries < 65536) :
    DnsHeader.read b = .ok (h, { b with pos := b.pos + 12 }) := by
  obtain ⟨id, rd, tm, aa, op, rsp, rc, cd, ad, z, ra, q, an, au, re⟩ := h
  dsimp only at hop hid hq han hau hre
  unfold encHeader at hbytes
  dsimp only at hbytes
  simp only [List.append_assoc] at hbytes
  obtain ⟨hb1, hrest⟩ := bytesAt_append hbytes
  rw [show (encU16 id).length = 2 from rfl] at hrest
  obtain ⟨hb2, hrest⟩ := bytesAt_append hrest
  rw [List.length_singleton] at hrest
  obtain ⟨hb3, hrest⟩ := bytesAt_append hrest
  rw [List.length_singleton] at hrest
  obtain ⟨hb4, hrest⟩ := bytesAt_append hrest
  rw [show (encU16 q).length = 2 from rfl] at hrest
  obtain ⟨hb5, hrest⟩ := bytesAt_append hrest
  rw [show (encU16 an).length = 2 from rfl] at hrest
  obtain ⟨hb6, hb7⟩ := bytesAt_append hrest
  rw [show (encU16 au).length = 2 from rfl] at hb7
  have hb23 := bytesAt_pair hb2 hb3
  have hrdle : rd.toNat ≤ 1 := by cases rd <;> simp
  have htmle : tm.toNat ≤ 1 := by cases tm <;> simp
  have haale : aa.toNat ≤ 1 := by cases aa <;> simp
  have hrsple : rsp.toNat ≤ 1 := by cases rsp <;> simp
  have hcdle : cd.toNat ≤ 1 := by cases cd <;> simp
  have hadle : ad.toNat ≤ 1 := by cases ad <;> simp
  have hzle : z.toNat ≤ 1 := by cases z <;> simp
  have hrale : ra.toNat ≤ 1 := by cases ra <;> simp
  have hrc6 : rc.toNat < 6 := toNat_lt rc
  have hs1 := flags1_sum rd tm aa rsp op hop
  have hs2 := flags2_sum cd ad z ra rc.toNat (by omega)
  have hS1lt : 128 * rsp.toNat + 8 * op + 4 * aa.toNat + 2 * tm.toNat + rd.toNat < 256 := by
    omega
  have hS2lt : 128 * ra.toNat + 64 * z.toNat + 32 * ad.toNat + 16 * cd.toNat + rc.toNat < 256 := by
    omega
  unfold DnsHeader.read
  rw [read_u16_at hb1 (by omega)]
  dsimp only
  rw [read_u16_at hb23 (by dsimp only; omega)]
  dsimp only
  rw [read_u16_at hb4 (by dsimp only; omega)]
  dsimp only
  rw [read_u16_at hb5 (by dsimp only; omega)]
  dsimp only
  rw [read_u16_at hb6 (by dsimp only; omega)]
  dsimp only
  rw [read_u16_at hb7 (by dsimp only; omega)]
  dsimp only
  rw [u16_round id hid, u16_round q hq, u16_round an han, u16_round au hau, u16_round re hre]
  rw [hs1, hs2]
  rw [Nat.mod_eq_of_lt hS1lt, Nat.mod_eq_of_lt hS2lt]
  rw [u16_split_hi hS1lt hS2lt, u16_split_lo hS2lt]
  rw [Nat.mod_eq_of_lt hS1lt]
  simp only [Except.ok.injEq, Prod.mk.injEq, DnsHeader.mk.injEq]
  obtain ⟨f1, f2, f3, f4, f5⟩ := byte1_fields rsp aa tm rd op hop
  obtain ⟨g1, g2, g3, g4, g5⟩ := byte2_fields ra z ad cd rc.toNat (by omega)
  refine ⟨⟨trivial, f1, f2, f3, f4, f5, ?_, g2, g3, g4, g5, trivial, trivial, trivial, trivial⟩, ?_⟩
  · rw [g1, from_num_toNat]
  · trivial

/-- The header encoding is 12 bytes. -/
theorem encHeader_length (h : DnsHeader) : (encHeader h).length = 12 := rfl

/-! ## C6: header round-trip -/

/-- **C6.** For any header with valid field values — boolean flags,
`opcode` within its 4-bit field, the `rescode` enumeration, and 16-bit
`id` and counts — writing it to a fresh buffer and reading the result
back yields the original header, field by field. -/
theorem header_roundtrip :
    ∀ (h : DnsHeader), h.opcode < 16 → h.id < 65536 → h.questions < 65536 →
      h.answers < 65536 → h.authoritative_entries < 65536 → h.resource_entries < 65536 →
      ∃ wb : BytePacketBuffer,
        h.write BytePacketBuffer.new = .ok wb ∧
        DnsHeader.read { wb with pos := 0 } = .ok (h, { wb with pos := 12 }) := by
  intro h hop hid hq han hau hre
  refine ⟨appendB BytePacketBuffer.new (encHeader h),
    header_write_eq h BytePacketBuffer.new (by norm_num [BytePacketBuffer.new]), ?_⟩
  have hb : bytesAt (appendB BytePacketBuffer.new (encHeader h)).buf 0 (encHeader h) := by
    have := bytesAt_appendB BytePacketBuffer.new (encHeader h)
      (by rw [encHeader_length]; norm_num [BytePacketBuffer.new])
    exact this
  exact header_read_at h { appendB BytePacketBuffer.new (encHeader h) with pos := 0 }
    hb (by norm_num) hop hid hq han hau hre

/-- Witness for `header_roundtrip` at a concrete header exercising every
field. -/
theorem header_roundtrip_witness :
    ∃ wb : BytePacketBuffer,
      DnsHeader.write
        ⟨6666, true, false, true, 11, true, .NXDOMAIN, true, false, true, true,
         513, 65535, 7, 256⟩ BytePacketBuffer.new = .ok wb ∧
      DnsHeader.read { wb with pos := 0 } =
        .ok (⟨6666, true, false, true, 11, true, .NXDOMAIN, true, false, true, true,
              513, 65535, 7, 256⟩, { wb with pos := 12 }) :=
  header_roundtrip
    ⟨6666, true, false, true, 11, true, .NXDOMAIN, true, false, true, true,
     513, 65535, 7, 256⟩
    (by norm_num) (by norm_num) (by norm_num) (by norm_num) (by norm_num) (by norm_num)

/-! ## Label-structure lemmas -/

theorem labelsOf_ne_nil : ∀ n : List Nat, labelsOf n ≠ [] := by
  intro n
  cases n with
  | nil => simp [labelsOf]
  | cons c r =>
    unfold labelsOf
    split
    · simp
    · cases labelsOf r <;> simp

theorem joinDots_labelsOf : ∀ n : List Nat, joinDots (labelsOf n) = n := by
  intro n
  induction n with
  | nil => rfl
  | cons c r ih =>
    unfold labelsOf
    by_cases hc : c = 46
    · rw [if_pos hc]
      cases hl : labelsOf r with
      | nil => exact absurd hl (labelsOf_ne_nil r)
      | cons l2 t =>
        rw [hl] at ih
        unfold joinDots
        subst hc
        simp only [List.nil_append]
        rw [ih]
    · rw [if_neg hc]
      cases hl : labelsOf r with
      | nil => exact absurd hl (labelsOf_ne_nil r)
      | cons h t =>
        rw [hl] at ih
        cases t with
        | nil =>
          unfold joinDots at ih ⊢
          rw [ih]
        | cons t1 t2 =>
          unfold joinDots at ih ⊢
          rw [List.cons_append, ih]

theorem mem_labelsOf : ∀ (n l : List Nat) (c : Nat), l ∈ labelsOf n → c ∈ l → c ∈ n := by
  intro n
  induction n with
  | nil =>
    intro l c hl hc
    simp [labelsOf] at hl
    subst hl
    simp at hc
  | cons d r ih =>
    intro l c hl hc
    unfold labelsOf at hl
    by_cases hd : d = 46
    · rw [if_pos hd] at hl
      rcases List.mem_cons.mp hl with h | h
      · subst h; simp at hc
      · exact List.mem_cons_of_mem d (ih l c h hc)
    · rw [if_neg hd] at hl
      cases hlr : labelsOf r with
      | nil => exact absurd hlr (labelsOf_ne_nil r)
      | cons h0 t =>
        rw [hlr] at hl
        rcases List.mem_cons.mp hl with h | h
        · subst h
          rcases List.mem_cons.mp hc with h' | h'
          · subst h'; exact List.mem_cons_self c r
          · exact List.mem_cons_of_mem d (ih h0 c (by rw [hlr]; exact List.mem_cons_self h0 t) h')
        · exact List.mem_cons_of_mem d (ih l c (by rw [hlr]; exact List.mem_cons_of_mem h0 h) hc)

theorem encQnameRest_eq : ∀ (n cur : List Nat),
    encQnameRest cur n =
      match labelsOf n with
      | [] => []
      | l :: ls => encLabel (cur ++ l) ++ ((ls.map encLabel).flatten ++ [0]) := by
  intro n
  induction n with
  | nil =>
    intro cur
    simp [labelsOf, encQnameRest, encLabel]
  | cons c r ih =>
    intro cur
    unfold encQnameRest labelsOf
    by_cases hc : c = 46
    · rw [if_pos hc, if_pos hc]
      rw [ih []]
      cases hl : labelsOf r with
      | nil => exact absurd hl (labelsOf_ne_nil r)
      | cons l ls =>
        dsimp only
        simp [encLabel]
    · rw [if_neg hc, if_neg hc]
      rw [ih (cur ++ [c])]
      cases hl : labelsOf r with
      | nil => exact absurd hl (labelsOf_ne_nil r)
      | cons l ls =>
        dsimp only
        simp [encLabel]

theorem encQname_eq_rest (n : List Nat) : encQname n = encQnameRest [] n := by
  rw [encQnameRest_eq n []]
  unfold encQname
  cases hl : labelsOf n with
  | nil => exact absurd hl (labelsOf_ne_nil n)
  | cons l ls =>
    dsimp only
    simp [encLabel]

theorem encQname_length_ge (n : List Nat) : 2 ≤ (encQname n).length := by
  unfold encQname
  cases hl : labelsOf n with
  | nil => exact absurd hl (labelsOf_ne_nil n)
  | cons l ls =>
    simp [encLabel]
    omega

/-! ## Write-path inversion lemmas -/

theorem write_ok_inv {b : BytePacketBuffer} {v : Nat} {b' : BytePacketBuffer}
    (h : b.write v = .ok b') : b' = appendB b [v % 256] ∧ b.pos < 512 := by
  unfold BytePacketBuffer.write at h
  split at h
  · simp at h
  · rename_i hc
    injection h with h
    exact ⟨h.symm, by omega⟩

theorem write_u8_inv {b : BytePacketBuffer} {v : Nat} {b' : BytePacketBuffer}
    (h : b.write_u8 v = .ok b') : b' = appendB b [v % 256] ∧ b.pos < 512 :=
  write_ok_inv h

theorem write_u16_inv {b : BytePacketBuffer} {v : Nat} {b' : BytePacketBuffer}
    (h : b.write_u16 v = .ok b') : b' = appendB b (encU16 v) ∧ b.pos + 2 ≤ 512 := by
  unfold BytePacketBuffer.write_u16 at h
  cases h1 : b.write (v >>> 8) with
  | error e => rw [h1] at h; simp at h
  | ok b1 =>
    rw [h1] at h
    dsimp only at h
    obtain ⟨hb1, hp1⟩ := write_ok_inv h1
    obtain ⟨hb2, hp2⟩ := write_ok_inv h
    subst hb1
    rw [appendB_appendB] at hb2
    rw [appendB_pos] at hp2
    exact ⟨hb2, by simp at hp2; omega⟩

theorem write_u32_inv {b : BytePacketBuffer} {v : Nat} {b' : BytePacketBuffer}
    (h : b.write_u32 v = .ok b') : b' = appendB b (encU32 v) ∧ b.pos + 4 ≤ 512 := by
  unfold BytePacketBuffer.write_u32 at h
  cases h1 : b.write ((v >>> 24) &&& 0xFF) with
  | error e => rw [h1] at h; simp at h
  | ok b1 =>
    rw [h1] at h
    dsimp only at h
    cases h2 : b1.write ((v >>> 16) &&& 0xFF) with
    | error e => rw [h2] at h; simp at h
    | ok b2 =>
      rw [h2] at h
      dsimp only at h
      cases h3 : b2.write ((v >>> 8) &&& 0xFF) with
      | error e => rw [h3] at h; simp at h
      | ok b3 =>
        rw [h3] at h
        dsimp only at h
        obtain ⟨e1, p1⟩ := write_ok_inv h1
        obtain ⟨e2, p2⟩ := write_ok_inv h2
        obtain ⟨e3, p3⟩ := write_ok_inv h3
        obtain ⟨e4, p4⟩ := write_ok_inv h
        subst e1; subst e2; subst e3
        rw [appendB_appendB, appendB_appendB, appendB_appendB] at e4
        rw [appendB_pos] at p2
        rw [appendB_pos, appendB_pos] at p3
        rw [appendB_pos, appendB_pos, appendB_pos] at p4
        simp at p2 p3 p4
        exact ⟨e4, by omega⟩

theorem write_chars_inv : ∀ (n : Nat) (qname : List Nat) (at_ : Nat)
    (b b' : BytePacketBuffer), at_ + n ≤ qname.length →
    BytePacketBuffer.write_chars qname b at_ n = .ok b' →
    b' = appendB b (((qname.drop at_).take n).map (· % 256)) := by
  intro n
  induction n with
  | zero =>
    intro qname at_ b b' hlen h
    unfold BytePacketBuffer.write_chars at h
    injection h with h
    subst h
    rfl
  | succ m ih =>
    intro qname at_ b b' hlen h
    unfold BytePacketBuffer.write_chars at h
    cases h1 : b.write_u8 (qname.getD at_ 0) with
    | error e => rw [h1] at h; simp at h
    | ok b1 =>
      rw [h1] at h
      dsimp only at h
      obtain ⟨e1, p1⟩ := write_u8_inv h1
      subst e1
      have := ih qname (at_ + 1) _ _ (by omega) h
      rw [appendB_appendB] at this
      rw [this]
      have hat : at_ < qname.length := by omega
      rw [List.drop_eq_getElem_cons hat, List.take_succ_cons, List.map_cons,
        List.getD_eq_getElem _ _ hat]
      rfl

/-- Inversion of the `write_qname` loop: a successful run appends
exactly the `encQnameRest` bytes of the pending label and the remaining
characters, and ends within the buffer. -/
theorem write_qname_loop_inv :
    ∀ (rest qname cur : List Nat) (b : BytePacketBuffer) (at_ : Nat) (b' : BytePacketBuffer),
      qname.drop at_ = cur ++ rest →
      at_ + cur.length + rest.length = qname.length →
      BytePacketBuffer.write_qname_loop qname b rest cur.length at_ = .ok b' →
      b' = appendB b (encQnameRest cur rest) ∧ b'.pos ≤ 512 := by
  intro rest
  induction rest with
  | nil =>
    intro qname cur b at_ b' hdrop hcount h
    simp only [List.length_nil] at hcount
    unfold BytePacketBuffer.write_qname_loop at h
    cases h1 : b.write_u8 cur.length with
    | error e => rw [h1] at h; simp at h
    | ok b1 =>
      rw [h1] at h
      dsimp only at h
      cases h2 : BytePacketBuffer.write_chars qname b1 at_ cur.length with
      | error e => rw [h2] at h; simp at h
      | ok b2 =>
        rw [h2] at h
        dsimp only at h
        obtain ⟨e1, p1⟩ := write_u8_inv h1
        subst e1
        have e2 := write_chars_inv cur.length qname at_ _ _ (by simp at hcount; omega) h2
        subst e2
        obtain ⟨e3, p3⟩ := write_u8_inv h
        have hcur : (qname.drop at_).take cur.length = cur := by
          rw [hdrop, List.append_nil, List.take_length]
        rw [hcur] at e3 p3
        rw [appendB_appendB, appendB_appendB] at e3
        refine ⟨by rw [e3]; rfl, ?_⟩
        rw [e3, appendB_pos]
        rw [appendB_pos, appendB_pos] at p3
        simp only [List.length_singleton, List.length_map] at p3
        simp only [encQnameRest, List.length_cons, List.length_append, List.length_map,
          List.length_singleton, List.length_nil]
        omega
  | cons c rest' ih =>
    intro qname cur b at_ b' hdrop hcount h
    unfold BytePacketBuffer.write_qname_loop at h
    by_cases hc : c = 46
    · rw [if_pos hc] at h
      cases h1 : b.write_u8 cur.length with
      | error e => rw [h1] at h; simp at h
      | ok b1 =>
        rw [h1] at h
        dsimp only at h
        cases h2 : BytePacketBuffer.write_chars qname b1 at_ cur.length with
        | error e => rw [h2] at h; simp at h
        | ok b2 =>
          rw [h2] at h
          dsimp only at h
          obtain ⟨e1, p1⟩ := write_u8_inv h1
          subst e1
          have e2 := write_chars_inv cur.length qname at_ _ _ (by simp at hcount; omega) h2
          subst e2
          have hcur : (qname.drop at_).take cur.length = cur := by
            rw [hdrop, List.take_left' rfl]
          have hdrop' : qname.drop (at_ + cur.length + 1) = rest' := by
            have hstep : qname.drop (at_ + cur.length + 1) =
                (qname.drop at_).drop (cur.length + 1) := by
              rw [List.drop_drop, Nat.add_assoc]
            rw [hstep, hdrop, show cur ++ c :: rest' = (cur ++ [c]) ++ rest' by simp,
              List.drop_left' (by simp)]
          have hcount' : (at_ + cur.length + 1) + ([] : List Nat).length + rest'.length =
              qname.length := by
            show (at_ + cur.length + 1) + 0 + rest'.length = qname.length
            simp only [List.length_cons] at hcount
            omega
          obtain ⟨e3, p3⟩ := ih qname [] _ (at_ + cur.length + 1) b'
            (by rw [hdrop']; rfl) hcount' h
          rw [hcur] at e3
          rw [appendB_appendB, appendB_appendB] at e3
          refine ⟨?_, p3⟩
          rw [e3]
          conv_rhs => rw [encQnameRest]
          rw [if_pos hc]
          rfl
    · rw [if_neg hc] at h
      rw [show cur.length + 1 = (cur ++ [c]).length by simp] at h
      have hdrop' : qname.drop at_ = (cur ++ [c]) ++ rest' := by
        rw [hdrop]; simp
      have hcount' : at_ + (cur ++ [c]).length + rest'.length = qname.length := by
        simp at hcount ⊢ <;> omega
      obtain ⟨e3, p3⟩ := ih qname (cur ++ [c]) b at_ b' hdrop' hcount' h
      refine ⟨?_, p3⟩
      rw [e3]
      conv_rhs => rw [encQnameRest]
      rw [if_neg hc]

/-- Inversion of `write_qname`: success appends exactly `encQname`. -/
theorem write_qname_inv {b : BytePacketBuffer} {n : List Nat} {b' : BytePacketBuffer}
    (h : b.write_qname n = .ok b') :
    b' = appendB b (encQname n) ∧ b'.pos ≤ 512 := by
  unfold BytePacketBuffer.write_qname at h
  have := write_qname_loop_inv n n [] b 0 b' (by simp) (by simp) h
  rwa [← encQname_eq_rest] at this

/-- A `bytesAt` region is literally the slice `buf[p..p+|xs|]`. -/
theorem slice_eq_of_bytesAt {buf xs : List Nat} {p : Nat} (h : bytesAt buf p xs)
    (hfit : p + xs.length ≤ buf.length) : (buf.drop p).take xs.length = xs := by
  apply List.ext_getElem?
  intro i
  by_cases hi : i < xs.length
  · rw [List.getElem?_take_of_lt hi, List.getElem?_drop]
    have hpi : p + i < buf.length := by omega
    rw [List.getElem?_eq_getElem hpi, List.getElem?_eq_getElem hi]
    have hd := h i hi
    rw [List.getD_eq_getElem buf 0 hpi, List.getD_eq_getElem xs 0 hi] at hd
    rw [hd]
  · rw [List.getElem?_eq_none (by simp [List.length_take, List.length_drop]; omega),
      List.getElem?_eq_none (by omega)]

/-- Reading a well-formed label sequence (each label nonempty and at
most 63 bytes) from the buffer: the loop consumes exactly the encoded
bytes, never jumps, and appends the lowercased labels joined by dots. -/
theorem read_qname_loop_labels :
    ∀ (ls : List (List Nat)) (fuel : Nat) (b : BytePacketBuffer) (pos : Nat)
      (delim out0 : List Nat),
      (∀ l ∈ ls, 1 ≤ l.length ∧ l.length ≤ 63) →
      bytesAt b.buf pos (((ls.map (fun x : List Nat => x.length :: x)).flatten) ++ [0]) →
      pos + (((ls.map (fun x : List Nat => x.length :: x)).flatten) ++ [0]).length < 512 →
      ls.length + 1 ≤ fuel →
      b.buf.length = 512 →
      BytePacketBuffer.read_qname_loop b fuel pos false 0 delim out0 =
        some (.ok
          ({ b with pos := pos + (((ls.map (fun x : List Nat => x.length :: x)).flatten) ++ [0]).length },
           outAppend delim ls out0)) := by
  intro ls
  induction ls with
  | nil =>
    intro fuel b pos delim out0 hwf hbytes hfit hfuel hlen
    simp only [List.map_nil, List.flatten_nil, List.nil_append, List.length_singleton] at hbytes hfit ⊢
    cases fuel with
    | zero => omega
    | succ f =>
      have hzero : b.buf.getD pos 0 = 0 := by
        have := hbytes 0 (by simp)
        rwa [Nat.add_zero] at this
      rw [BytePacketBuffer.read_qname_loop]
      rw [if_neg (by norm_num [BytePacketBuffer.max_jumps])]
      rw [get_eq_ok b pos (by omega)]
      dsimp only
      rw [hzero]
      rw [if_neg (by decide), if_pos rfl]
      rw [if_neg (by simp)]
      rw [seek_eq_ok b (pos + 1) (by omega)]
      rfl
  | cons l ls ih =>
    intro fuel b pos delim out0 hwf hbytes hfit hfuel hlen
    simp only [List.map_cons, List.flatten_cons, List.append_assoc] at hbytes hfit ⊢
    simp only [List.length_cons, List.length_append, List.length_singleton] at hfit
    obtain ⟨hl1, hl63⟩ := hwf l (List.mem_cons_self l ls)
    obtain ⟨hhead, htail⟩ := bytesAt_append hbytes
    simp only [List.length_cons] at htail
    have hbyte0 : b.buf.getD pos 0 = l.length := by
      have := hhead 0 (by simp)
      rwa [Nat.add_zero] at this
    have hlabel : bytesAt b.buf (pos + 1) l := by
      intro i hi
      have := hhead (i + 1) (by simp; omega)
      rw [show pos + (i + 1) = pos + 1 + i by omega] at this
      exact this
    cases fuel with
    | zero => simp at hfuel
    | succ f =>
      rw [BytePacketBuffer.read_qname_loop]
      rw [if_neg (by norm_num [BytePacketBuffer.max_jumps])]
      rw [get_eq_ok b pos (by omega)]
      dsimp only
      rw [hbyte0]
      have hnp : ¬ (l.length &&& 0xC0 = 0xC0) := by
        have := Nat.and_le_left (n := l.length) (m := 0xC0)
        omega
      rw [if_neg hnp, if_neg (by omega)]
      rw [get_range_eq_ok b (pos + 1) l.length (by omega)]
      dsimp only
      rw [slice_eq_of_bytesAt hlabel (by omega)]
      have htail' : bytesAt b.buf (pos + 1 + l.length)
          (((ls.map (fun x : List Nat => x.length :: x)).flatten) ++ [0]) := by
        rw [show pos + (l.length + 1) = pos + 1 + l.length by omega] at htail
        exact htail
      rw [ih f b (pos + 1 + l.length) [46] (out0 ++ delim ++ l.map toLowerByte)
        (fun x hx => hwf x (List.mem_cons_of_mem l hx)) htail'
        (by simp only [List.length_append, List.length_singleton]; omega)
        (by simp at hfuel; omega) hlen]
      have hfin : pos + 1 + l.length +
            ((((ls.map (fun x : List Nat => x.length :: x)).flatten) ++ [0]).length) =
          pos + (l.length :: (l ++ (((ls.map (fun x : List Nat => x.length :: x)).flatten) ++ [0]))).length := by
        simp only [List.length_cons, List.length_append, List.length_singleton]
        omega
      rw [hfin]
      rfl

theorem len_le_flatten : ∀ (lss : List (List Nat)), (∀ l ∈ lss, 1 ≤ l.length) →
    lss.length ≤ lss.flatten.length := by
  intro lss
  induction lss with
  | nil => intro _; simp
  | cons l ls ih =>
    intro h
    have h1 := h l (List.mem_cons_self l ls)
    have h2 := ih (fun x hx => h x (List.mem_cons_of_mem l hx))
    simp only [List.length_cons, List.flatten_cons, List.length_append]
    omega

/-- Reading an `encQname`-encoded well-formed name: the shared position
advances exactly past the encoding and the lowercased stored labels are
appended to `out0`. -/
theorem read_qname_at (n : List Nat) (b : BytePacketBuffer) (out0 : List Nat)
    (hgl : goodLabels n)
    (hbytes : bytesAt b.buf b.pos (encQname n))
    (hfit : b.pos + (encQname n).length < 512)
    (hlen : b.buf.length = 512) :
    b.read_qname out0 =
      some (.ok ({ b with pos := b.pos + (encQname n).length },
        outAppend [] ((labelsOf n).map (List.map (· % 256))) out0)) := by
  have hform : encQname n =
      ((((labelsOf n).map (List.map (· % 256))).map
        (fun x : List Nat => x.length :: x)).flatten) ++ [0] := by
    unfold encQname
    congr 1
    congr 1
    rw [List.map_map]
    apply List.map_congr_left
    intro l hl
    have := hgl l hl
    simp only [Function.comp_apply, encLabel, List.length_map]
    rw [Nat.mod_eq_of_lt (by omega)]
  have hwf : ∀ l ∈ (labelsOf n).map (List.map (· % 256)), 1 ≤ l.length ∧ l.length ≤ 63 := by
    intro l hl
    obtain ⟨l0, hl0, rfl⟩ := List.mem_map.mp hl
    have := hgl l0 hl0
    simp only [List.length_map]
    omega
  have hcount : ((labelsOf n).map (List.map (· % 256))).length + 1 ≤
      BytePacketBuffer.qname_fuel := by
    have h1 : ((labelsOf n).map (List.map (· % 256))).length ≤
        ((((labelsOf n).map (List.map (· % 256))).map
          (fun x : List Nat => x.length :: x)).flatten).length := by
      have hself := len_le_flatten (((labelsOf n).map (List.map (· % 256))).map
        (fun x : List Nat => x.length :: x))
        (by intro l hl; obtain ⟨l0, _, rfl⟩ := List.mem_map.mp hl; simp)
      rwa [List.length_map] at hself
    have h2 : (encQname n).length < 512 := by omega
    rw [hform] at h2
    simp only [List.length_append, List.length_singleton] at h2
    unfold BytePacketBuffer.qname_fuel
    omega
  unfold BytePacketBuffer.read_qname
  rw [show b.pos + (encQname n).length =
    b.pos + (((((labelsOf n).map (List.map (· % 256))).map
      (fun x : List Nat => x.length :: x)).flatten) ++ [0]).length by rw [← hform]]
  apply read_qname_loop_labels _ _ _ _ _ _ hwf (by rw [← hform]; exact hbytes)
    (by rw [← hform]; exact hfit) hcount hlen

theorem outAppend_join : ∀ (ls : List (List Nat)) (l : List Nat) (delim out0 : List Nat),
    outAppend delim (l :: ls) out0 =
      out0 ++ delim ++ joinDots ((l :: ls).map (List.map toLowerByte)) := by
  intro ls
  induction ls with
  | nil =>
    intro l delim out0
    simp [outAppend, joinDots]
  | cons l2 t ih =>
    intro l delim out0
    show outAppend [46] (l2 :: t) (out0 ++ delim ++ l.map toLowerByte) = _
    rw [ih l2 [46] (out0 ++ delim ++ l.map toLowerByte)]
    simp only [List.map_cons, joinDots]
    simp [List.append_assoc]

/-- On an ASCII, lowercase-stable name the read-back byte string is the
original name. -/
theorem outAppend_stable (n : List Nat) (hst : lowerStable n) :
    outAppend [] ((labelsOf n).map (List.map (· % 256))) [] = n := by
  cases hl : labelsOf n with
  | nil => exact absurd hl (labelsOf_ne_nil n)
  | cons l ls =>
    rw [List.map_cons, outAppend_join]
    simp only [List.nil_append]
    rw [← List.map_cons (List.map (· % 256)) l ls, List.map_map, ← hl]
    have hmapid : (labelsOf n).map (List.map toLowerByte ∘ List.map (· % 256)) = labelsOf n := by
      conv_rhs => rw [← List.map_id (labelsOf n)]
      apply List.map_congr_left
      intro l' hl'
      simp only [Function.comp_apply, List.map_map]
      have : ∀ c ∈ l', toLowerByte (c % 256) = c := by
        intro c hc
        obtain ⟨hc128, hcup⟩ := hst c (mem_labelsOf n l' c hl' hc)
        rw [Nat.mod_eq_of_lt (by omega)]
        unfold toLowerByte
        rw [if_neg hcup]
      calc l'.map (toLowerByte ∘ (· % 256))
          = l'.map id := List.map_congr_left (fun c hc => this c hc)
        _ = l' := List.map_id l'
    rw [hmapid, joinDots_labelsOf]

/-! ## 32-bit assembly lemmas -/

theorem u32_assemble (x0 x1 x2 x3 : Nat) (h0 : x0 < 256) (h1 : x1 < 256)
    (h2 : x2 < 256) (h3 : x3 < 256) :
    (x0 <<< 24) ||| (x1 <<< 16) ||| (x2 <<< 8) ||| (x3 <<< 0) =
      16777216 * x0 + 65536 * x1 + 256 * x2 + x3 := by
  rw [Nat.shiftLeft_zero]
  rw [shl_or_eq_add (show x1 <<< 16 < 2 ^ 24 by rw [Nat.shiftLeft_eq]; norm_num; omega)]
  rw [or_eq_add
    (show (2 ^ 24 * x0 + x1 <<< 16) % 2 ^ 16 = 0 by rw [Nat.shiftLeft_eq]; norm_num; omega)
    (show x2 <<< 8 < 2 ^ 16 by rw [Nat.shiftLeft_eq]; norm_num; omega)]
  rw [or_eq_add
    (show (2 ^ 24 * x0 + x1 <<< 16 + x2 <<< 8) % 2 ^ 8 = 0 by
      rw [Nat.shiftLeft_eq, Nat.shiftLeft_eq]; norm_num; omega)
    (show x3 < 2 ^ 8 by norm_num; omega)]
  rw [Nat.shiftLeft_eq, Nat.shiftLeft_eq]
  norm_num
  omega

theorem u32_octets (x0 x1 x2 x3 : Nat) (h0 : x0 < 256) (h1 : x1 < 256)
    (h2 : x2 < 256) (h3 : x3 < 256) :
    (((x0 <<< 24) ||| (x1 <<< 16) ||| (x2 <<< 8) ||| (x3 <<< 0)) >>> 24) &&& 0xFF = x0 ∧
    (((x0 <<< 24) ||| (x1 <<< 16) ||| (x2 <<< 8) ||| (x3 <<< 0)) >>> 16) &&& 0xFF = x1 ∧
    (((x0 <<< 24) ||| (x1 <<< 16) ||| (x2 <<< 8) ||| (x3 <<< 0)) >>> 8) &&& 0xFF = x2 ∧
    (((x0 <<< 24) ||| (x1 <<< 16) ||| (x2 <<< 8) ||| (x3 <<< 0)) >>> 0) &&& 0xFF = x3 := by
  rw [u32_assemble x0 x1 x2 x3 h0 h1 h2 h3]
  rw [Nat.shiftRight_zero]
  rw [Nat.shiftRight_eq_div_pow, Nat.shiftRight_eq_div_pow, Nat.shiftRight_eq_div_pow]
  rw [and_255, and_255, and_255, and_255]
  norm_num
  omega

theorem u32_round (v : Nat) (hv : v < 4294967296) :
    ((((v >>> 24) &&& 0xFF) % 256) <<< 24) ||| ((((v >>> 16) &&& 0xFF) % 256) <<< 16) |||
      ((((v >>> 8) &&& 0xFF) % 256) <<< 8) ||| ((((v >>> 0) &&& 0xFF) % 256) <<< 0) = v := by
  rw [Nat.shiftRight_zero]
  rw [Nat.shiftRight_eq_div_pow, Nat.shiftRight_eq_div_pow, Nat.shiftRight_eq_div_pow]
  rw [and_255, and_255, and_255, and_255]
  rw [u32_assemble _ _ _ _ (by omega) (by omega) (by omega) (by omega)]
  norm_num
  omega

/-! ## Composite writer inversions -/

theorem question_write_inv {q : DnsQuestion} {b b' : BytePacketBuffer}
    (h : q.write b = .ok b') :
    b' = appendB b (encQuestion q) ∧ b'.pos ≤ 512 := by
  unfold DnsQuestion.write at h
  cases h1 : b.write_qname q.name with
  | error e => rw [h1] at h; simp at h
  | ok b1 =>
    rw [h1] at h
    dsimp only at h
    cases h2 : b1.write_u16 q.qtype.to_num with
    | error e => rw [h2] at h; simp at h
    | ok b2 =>
      rw [h2] at h
      dsimp only at h
      obtain ⟨e1, p1⟩ := write_qname_inv h1
      obtain ⟨e2, p2⟩ := write_u16_inv h2
      obtain ⟨e3, p3⟩ := write_u16_inv h
      subst e1; subst e2
      rw [appendB_appendB, appendB_appendB] at e3
      constructor
      · rw [e3]
        unfold encQuestion
        rw [List.append_assoc]
      · rw [e3, appendB_pos]
        rw [appendB_pos, appendB_pos] at p3
        simp only [encQuestion, encU16, List.length_append, List.length_cons,
          List.length_nil] at p3 ⊢
        omega

theorem record_write_inv {r : DnsRecord} {b : BytePacketBuffer} {sz : Nat}
    {b' : BytePacketBuffer} (h : r.write b = .ok (sz, b')) :
    b' = appendB b (encRecord r) ∧ (b'.pos ≤ 512 ∨ encRecord r = []) := by
  cases r with
  | UNKNOWN dom qt ttl dl =>
    unfold DnsRecord.write at h
    dsimp only at h
    injection h with h
    injection h with _ hb
    exact ⟨hb.symm, Or.inr rfl⟩
  | A dom addr ttl =>
    unfold DnsRecord.write at h
    dsimp only at h
    cases h1 : b.write_qname dom with
    | error e => rw [h1] at h; simp at h
    | ok b1 =>
      rw [h1] at h
      dsimp only at h
      cases h2 : b1.write_u16 QueryType.A.to_num with
      | error e => rw [h2] at h; simp at h
      | ok b2 =>
        rw [h2] at h
        dsimp only at h
        cases h3 : b2.write_u16 1 with
        | error e => rw [h3] at h; simp at h
        | ok b3 =>
          rw [h3] at h
          dsimp only at h
          cases h4 : b3.write_u32 ttl with
          | error e => rw [h4] at h; simp at h
          | ok b4 =>
            rw [h4] at h
            dsimp only at h
            cases h5 : b4.write_u16 4 with
            | error e => rw [h5] at h; simp at h
            | ok b5 =>
              rw [h5] at h
              dsimp only at h
              cases h6 : b5.write_u8 addr.o0 with
              | error e => rw [h6] at h; simp at h
              | ok b6 =>
                rw [h6] at h
                dsimp only at h
                cases h7 : b6.write_u8 addr.o1 with
                | error e => rw [h7] at h; simp at h
                | ok b7 =>
                  rw [h7] at h
                  dsimp only at h
                  cases h8 : b7.write_u8 addr.o2 with
                  | error e => rw [h8] at h; simp at h
                  | ok b8 =>
                    rw [h8] at h
                    dsimp only at h
                    cases h9 : b8.write_u8 addr.o3 with
                    | error e => rw [h9] at h; simp at h
                    | ok b9 =>
                      rw [h9] at h
                      dsimp only at h
                      injection h with h
                      injection h with _ hb
                      obtain ⟨e1, p1⟩ := write_qname_inv h1
                      obtain ⟨e2, p2⟩ := write_u16_inv h2
                      obtain ⟨e3, p3⟩ := write_u16_inv h3
                      obtain ⟨e4, p4⟩ := write_u32_inv h4
                      obtain ⟨e5, p5⟩ := write_u16_inv h5
                      obtain ⟨e6, p6⟩ := write_u8_inv h6
                      obtain ⟨e7, p7⟩ := write_u8_inv h7
                      obtain ⟨e8, p8⟩ := write_u8_inv h8
                      obtain ⟨e9, p9⟩ := write_u8_inv h9
                      subst e1; subst e2; subst e3; subst e4; subst e5
                      subst e6; subst e7; subst e8; subst e9
                      constructor
                      · rw [← hb]
                        rw [appendB_appendB, appendB_appendB, appendB_appendB,
                          appendB_appendB, appendB_appendB, appendB_appendB,
                          appendB_appendB, appendB_appendB]
                        unfold encRecord
                        simp [List.append_assoc]
                      · left
                        rw [← hb, appendB_pos]
                        simp only [List.length_singleton]
                        omega

theorem header_write_inv {hd : DnsHeader} {b b' : BytePacketBuffer}
    (h : hd.write b = .ok b') :
    b' = appendB b (encHeader hd) ∧ b'.pos ≤ 512 := by
  unfold DnsHeader.write at h
  cases h1 : b.write_u16 hd.id with
  | error e => rw [h1] at h; simp at h
  | ok b1 =>
    rw [h1] at h; dsimp only at h
    cases h2 : b1.write_u8 (hd.recursion_desired.toNat |||
        (hd.truncate_message.toNat <<< 1) ||| (hd.authoritative_answer.toNat <<< 2) |||
        ((hd.opcode <<< 3) % 256) ||| (hd.response.toNat <<< 7)) with
    | error e => rw [h2] at h; simp at h
    | ok b2 =>
      rw [h2] at h; dsimp only at h
      cases h3 : b2.write_u8 (hd.rescode.toNat ||| (hd.checking_disabled.toNat <<< 4) |||
          (hd.authed_data.toNat <<< 5) ||| (hd.z.toNat <<< 6) |||
          (hd.recursion_available.toNat <<< 7)) with
      | error e => rw [h3] at h; simp at h
      | ok b3 =>
        rw [h3] at h; dsimp only at h
        cases h4 : b3.write_u16 hd.questions with
        | error e => rw [h4] at h; simp at h
        | ok b4 =>
          rw [h4] at h; dsimp only at h
          cases h5 : b4.write_u16 hd.answers with
          | error e => rw [h5] at h; simp at h
          | ok b5 =>
            rw [h5] at h; dsimp only at h
            cases h6 : b5.write_u16 hd.authoritative_entries with
            | error e => rw [h6] at h; simp at h
            | ok b6 =>
              rw [h6] at h; dsimp only at h
              obtain ⟨e1, p1⟩ := write_u16_inv h1
              obtain ⟨e2, p2⟩ := write_u8_inv h2
              obtain ⟨e3, p3⟩ := write_u8_inv h3
              obtain ⟨e4, p4⟩ := write_u16_inv h4
              obtain ⟨e5, p5⟩ := write_u16_inv h5
              obtain ⟨e6, p6⟩ := write_u16_inv h6
              obtain ⟨e7, p7⟩ := write_u16_inv h
              subst e1; subst e2; subst e3; subst e4; subst e5; subst e6
              rw [appendB_appendB, appendB_appendB, appendB_appendB, appendB_appendB,
                appendB_appendB, appendB_appendB] at e7
              constructor
              · rw [e7]
                unfold encHeader
                simp [List.append_assoc]
              · rw [e7, appendB_pos]
                rw [appendB_pos, appendB_pos, appendB_pos, appendB_pos, appendB_pos,
                  appendB_pos] at p7
                simp only [encU16, List.length_append, List.length_cons, List.length_nil,
                  List.length_singleton] at p7 ⊢
                omega

theorem write_questions_inv : ∀ (qs : List DnsQuestion) (b b' : BytePacketBuffer),
    DnsPacket.write_questions qs b = .ok b' →
    b' = appendB b ((qs.map encQuestion).flatten) ∧ (b'.pos ≤ 512 ∨ b' = b) := by
  intro qs
  induction qs with
  | nil =>
    intro b b' h
    unfold DnsPacket.write_questions at h
    injection h with h
    exact ⟨h.symm, Or.inr h.symm⟩
  | cons q qs ih =>
    intro b b' h
    unfold DnsPacket.write_questions at h
    cases h1 : q.write b with
    | error e => rw [h1] at h; simp at h
    | ok b1 =>
      rw [h1] at h
      dsimp only at h
      obtain ⟨e1, p1⟩ := question_write_inv h1
      obtain ⟨e2, p2⟩ := ih b1 b' h
      subst e1
      rw [appendB_appendB] at e2
      refine ⟨by rw [e2]; simp, ?_⟩
      rcases p2 with hp | hp
      · exact Or.inl hp
      · left
        rw [hp]
        exact p1

theorem write_records_inv : ∀ (rs : List DnsRecord) (b b' : BytePacketBuffer),
    DnsPacket.write_records rs b = .ok b' →
    b' = appendB b ((rs.map encRecord).flatten) ∧ (b'.pos ≤ 512 ∨ b' = b) := by
  intro rs
  induction rs with
  | nil =>
    intro b b' h
    unfold DnsPacket.write_records at h
    injection h with h
    exact ⟨h.symm, Or.inr h.symm⟩
  | cons r rs ih =>
    intro b b' h
    unfold DnsPacket.write_records at h
    cases h1 : r.write b with
    | error e => rw [h1] at h; simp at h
    | ok p =>
      obtain ⟨sz, b1⟩ := p
      rw [h1] at h
      dsimp only at h
      obtain ⟨e1, p1⟩ := record_write_inv h1
      obtain ⟨e2, p2⟩ := ih b1 b' h
      subst e1
      rw [appendB_appendB] at e2
      refine ⟨by rw [e2]; simp, ?_⟩
      rcases p2 with hp | hp
      · exact Or.inl hp
      · rcases p1 with hq | hq
        · left
          rw [hp]
          exact hq
        · rw [hp, hq]
          right
          rw [show appendB b [] = b from rfl]

theorem packet_write_inv {m : DnsPacket} {b b' : BytePacketBuffer}
    (h : m.write b = .ok b') :
    b' = appendB b (encPacket m) ∧ b'.pos ≤ 512 := by
  unfold DnsPacket.write at h
  dsimp only at h
  cases h1 : DnsHeader.write { m.header with
      questions := m.questions.length % 65536
      answers := m.answers.length % 65536
      authoritative_entries := m.authorities.length % 65536
      resource_entries := m.resources.length % 65536 } b with
  | error e => rw [h1] at h; simp at h
  | ok b1 =>
    rw [h1] at h
    dsimp only at h
    cases h2 : DnsPacket.write_questions m.questions b1 with
    | error e => rw [h2] at h; simp at h
    | ok b2 =>
      rw [h2] at h
      dsimp only at h
      cases h3 : DnsPacket.write_records m.answers b2 with
      | error e => rw [h3] at h; simp at h
      | ok b3 =>
        rw [h3] at h
        dsimp only at h
        cases h4 : DnsPacket.write_records m.authorities b3 with
        | error e => rw [h4] at h; simp at h
        | ok b4 =>
          rw [h4] at h
          dsimp only at h
          obtain ⟨e1, p1⟩ := header_write_inv h1
          obtain ⟨e2, p2⟩ := write_questions_inv _ _ _ h2
          obtain ⟨e3, p3⟩ := write_records_inv _ _ _ h3
          obtain ⟨e4, p4⟩ := write_records_inv _ _ _ h4
          obtain ⟨e5, p5⟩ := write_records_inv _ _ _ h
          subst e1; subst e2; subst e3; subst e4
          rw [appendB_appendB, appendB_appendB, appendB_appendB, appendB_appendB] at e5
          constructor
          · rw [e5]
            unfold encPacket
            simp [List.append_assoc]
          · have hb1 : (appendB b (encHeader { m.header with
                questions := m.questions.length % 65536
                answers := m.answers.length % 65536
                authoritative_entries := m.authorities.length % 65536
                resource_entries := m.resources.length % 65536 })).pos ≤ 512 := p1
            rcases p5 with hp | hp
            · exact hp
            · rw [hp]
              rcases p4 with hp4 | hp4
              · exact hp4
              · rw [hp4]
                rcases p3 with hp3 | hp3
                · exact hp3
                · rw [hp3]
                  rcases p2 with hp2 | hp2
                  · exact hp2
                  · rw [hp2]
                    exact hb1

/-! ## Reader composition for questions and records -/

theorem question_read_at (q : DnsQuestion) (b : BytePacketBuffer)
    (hgl : goodLabels q.name) (hst : lowerStable q.name)
    (hqrt : QueryType.from_num q.qtype.to_num = q.qtype)
    (hqlt : q.qtype.to_num < 65536)
    (hbytes : bytesAt b.buf b.pos (encQuestion q))
    (hfit : b.pos + (encQuestion q).length ≤ 512)
    (hlen : b.buf.length = 512) :
    (DnsQuestion.new [] (.UNKNOWN 0)).read b =
      some (.ok (q, { b with pos := b.pos + (encQuestion q).length })) := by
  obtain ⟨nm, qt⟩ := q
  dsimp only at hgl hst hqrt hqlt hbytes hfit ⊢
  have hql : (encQuestion ⟨nm, qt⟩).length = (encQname nm).length + 4 := by
    simp [encQuestion, encU16]
  unfold encQuestion at hbytes
  dsimp only at hbytes
  simp only [List.append_assoc] at hbytes
  obtain ⟨hname, hrest⟩ := bytesAt_append hbytes
  obtain ⟨htype, hclass⟩ := bytesAt_append hrest
  rw [show (encU16 qt.to_num).length = 2 from rfl] at hclass
  unfold DnsQuestion.read DnsQuestion.new
  dsimp only
  rw [read_qname_at nm b [] hgl hname (by omega) hlen]
  dsimp only
  rw [read_u16_at htype (by dsimp only; omega)]
  dsimp only
  rw [u16_round qt.to_num hqlt, hqrt]
  rw [read_u16_at hclass (by dsimp only; omega)]
  dsimp only
  rw [outAppend_stable nm hst]
  have hp : b.pos + (encQname nm).length + 2 + 2 = b.pos + (encQuestion ⟨nm, qt⟩).length := by
    rw [hql]; omega
  rw [hp]

theorem record_read_at (dom : List Nat) (addr : Ipv4) (ttl : Nat) (b : BytePacketBuffer)
    (hgl : goodLabels dom)
    (ho0 : addr.o0 < 256) (ho1 : addr.o1 < 256) (ho2 : addr.o2 < 256) (ho3 : addr.o3 < 256)
    (httl : ttl < 4294967296)
    (hbytes : bytesAt b.buf b.pos (encRecord (.A dom addr ttl)))
    (hfit : b.pos + (encRecord (.A dom addr ttl)).length ≤ 512)
    (hlen : b.buf.length = 512) :
    DnsRecord.read b =
      some (.ok
        (.A (outAppend [] ((labelsOf dom).map (List.map (· % 256))) []) addr ttl,
         { b with pos := b.pos + (encRecord (.A dom addr ttl)).length })) := by
  obtain ⟨o0, o1, o2, o3⟩ := addr
  dsimp only at ho0 ho1 ho2 ho3 ⊢
  have hrl : (encRecord (.A dom ⟨o0, o1, o2, o3⟩ ttl)).length = (encQname dom).length + 14 := by
    simp [encRecord, encU16, encU32]
  unfold encRecord at hbytes
  dsimp only at hbytes
  simp only [List.append_assoc] at hbytes
  obtain ⟨hname, hrest⟩ := bytesAt_append hbytes
  obtain ⟨htype, hrest2⟩ := bytesAt_append hrest
  rw [show (encU16 QueryType.A.to_num).length = 2 from rfl] at hrest2
  obtain ⟨hclass, hrest3⟩ := bytesAt_append hrest2
  rw [show (encU16 1).length = 2 from rfl] at hrest3
  obtain ⟨httlb, hrest4⟩ := bytesAt_append hrest3
  rw [show (encU32 ttl).length = 4 from rfl] at hrest4
  obtain ⟨hdl, haddr⟩ := bytesAt_append hrest4
  rw [show (encU16 4).length = 2 from rfl] at haddr
  unfold DnsRecord.read
  rw [read_qname_at dom b [] hgl hname (by omega) hlen]
  dsimp only
  rw [read_u16_at htype (by dsimp only; omega)]
  dsimp only
  rw [u16_round QueryType.A.to_num (by norm_num [QueryType.to_num])]
  rw [show QueryType.from_num QueryType.A.to_num = .A from rfl]
  rw [read_u16_at hclass (by dsimp only; omega)]
  dsimp only
  rw [read_u32_at httlb (by dsimp only; omega)]
  dsimp only
  rw [u32_round ttl httl]
  rw [read_u16_at hdl (by dsimp only; omega)]
  dsimp only
  rw [read_u32_at haddr (by dsimp only; omega)]
  dsimp only
  have hm0 : o0 % 256 = o0 := Nat.mod_eq_of_lt ho0
  have hm1 : o1 % 256 = o1 := Nat.mod_eq_of_lt ho1
  have hm2 : o2 % 256 = o2 := Nat.mod_eq_of_lt ho2
  have hm3 : o3 % 256 = o3 := Nat.mod_eq_of_lt ho3
  obtain ⟨x0, x1, x2, x3⟩ := u32_octets (o0 % 256) (o1 % 256) (o2 % 256) (o3 % 256)
    (by omega) (by omega) (by omega) (by omega)
  rw [x0, x1, x2, x3, hm0, hm1, hm2, hm3]
  have hp : b.pos + (encQname dom).length + 2 + 2 + 4 + 2 + 4 =
      b.pos + (encRecord (.A dom ⟨o0, o1, o2, o3⟩ ttl)).length := by
    rw [hrl]; omega
  rw [hp]

/-- Reading back a question list written by `write_questions`. -/
theorem read_questions_at : ∀ (qs : List DnsQuestion) (b : BytePacketBuffer),
    (∀ q ∈ qs, goodLabels q.name ∧ lowerStable q.name ∧
      QueryType.from_num q.qtype.to_num = q.qtype ∧ q.qtype.to_num < 65536) →
    bytesAt b.buf b.pos ((qs.map encQuestion).flatten) →
    b.pos + ((qs.map encQuestion).flatten).length ≤ 512 →
    b.buf.length = 512 →
    DnsPacket.read_questions qs.length b =
      some (.ok (qs, { b with pos := b.pos + ((qs.map encQuestion).flatten).length })) := by
  intro qs
  induction qs with
  | nil =>
    intro b hwf hbytes hfit hlen
    simp only [List.map_nil, List.flatten_nil, List.length_nil, Nat.add_zero]
    rfl
  | cons q qs ih =>
    intro b hwf hbytes hfit hlen
    simp only [List.map_cons, List.flatten_cons] at hbytes hfit ⊢
    obtain ⟨hhead, htail⟩ := bytesAt_append hbytes
    simp only [List.length_append] at hfit
    obtain ⟨hgl, hst, hqrt, hqlt⟩ := hwf q (List.mem_cons_self q qs)
    show DnsPacket.read_questions (qs.length + 1) b = _
    unfold DnsPacket.read_questions
    rw [question_read_at q b hgl hst hqrt hqlt hhead (by omega) hlen]
    dsimp only
    rw [ih { b with pos := b.pos + (encQuestion q).length }
      (fun x hx => hwf x (List.mem_cons_of_mem q hx)) htail (by dsimp only; omega) hlen]
    dsimp only
    simp only [List.length_append]
    rw [show b.pos + (encQuestion q).length + ((qs.map encQuestion).flatten).length =
      b.pos + ((encQuestion q).length + ((qs.map encQuestion).flatten).length) by omega]

/-- Reading back a record list of `A` records written by `write_records`:
the addresses and TTLs (and count) are reproduced. -/
theorem read_records_at : ∀ (rs : List DnsRecord) (b : BytePacketBuffer),
    (∀ r ∈ rs, ∃ dom addr ttl, r = .A dom addr ttl ∧ goodLabels dom ∧
      addr.o0 < 256 ∧ addr.o1 < 256 ∧ addr.o2 < 256 ∧ addr.o3 < 256 ∧ ttl < 4294967296) →
    bytesAt b.buf b.pos ((rs.map encRecord).flatten) →
    b.pos + ((rs.map encRecord).flatten).length ≤ 512 →
    b.buf.length = 512 →
    ∃ rs' : List DnsRecord,
      DnsPacket.read_records rs.length b =
        some (.ok (rs', { b with pos := b.pos + ((rs.map encRecord).flatten).length })) ∧
      rs'.map recAddrTtl = rs.map recAddrTtl := by
  intro rs
  induction rs with
  | nil =>
    intro b hwf hbytes hfit hlen
    refine ⟨[], ?_, rfl⟩
    simp only [List.map_nil, List.flatten_nil, List.length_nil, Nat.add_zero]
    rfl
  | cons r rs ih =>
    intro b hwf hbytes hfit hlen
    obtain ⟨dom, addr, ttl, hr, hgl, ho0, ho1, ho2, ho3, httl⟩ :=
      hwf r (List.mem_cons_self r rs)
    subst hr
    simp only [List.map_cons, List.flatten_cons] at hbytes hfit ⊢
    obtain ⟨hhead, htail⟩ := bytesAt_append hbytes
    simp only [List.length_append] at hfit
    obtain ⟨rs', hrec, hmap⟩ := ih { b with pos := b.pos + (encRecord (.A dom addr ttl)).length }
      (fun x hx => hwf x (List.mem_cons_of_mem _ hx)) htail (by dsimp only; omega) hlen
    refine ⟨.A (outAppend [] ((labelsOf dom).map (List.map (· % 256))) []) addr ttl :: rs',
      ?_, ?_⟩
    · show DnsPacket.read_records (rs.length + 1) b = _
      unfold DnsPacket.read_records
      rw [record_read_at dom addr ttl b hgl ho0 ho1 ho2 ho3 httl hhead (by omega) hlen]
      dsimp only
      rw [hrec]
      dsimp only
      simp only [List.length_append]
      rw [show b.pos + (encRecord (.A dom addr ttl)).length +
          ((rs.map encRecord).flatten).length =
        b.pos + ((encRecord (.A dom addr ttl)).length +
          ((rs.map encRecord).flatten).length) by omega]
    · simp only [List.map_cons, hmap]
      rfl

/-- Reading back a written header reproduces at least the four counts
(no constraint on the flag fields is needed for this). -/
theorem header_read_counts (hd : DnsHeader) (b : BytePacketBuffer)
    (hbytes : bytesAt b.buf b.pos (encHeader hd))
    (hfit : b.pos + 12 ≤ 512)
    (hq : hd.questions < 65536) (han : hd.answers < 65536)
    (hau : hd.authoritative_entries < 65536) (hre : hd.resource_entries < 65536) :
    ∃ hd' : DnsHeader, DnsHeader.read b = .ok (hd', { b with pos := b.pos + 12 }) ∧
      hd'.questions = hd.questions ∧ hd'.answers = hd.answers ∧
      hd'.authoritative_entries = hd.authoritative_entries ∧
      hd'.resource_entries = hd.resource_entries := by
  obtain ⟨id, rd, tm, aa, op, rsp, rc, cd, ad, z, ra, q, an, au, re⟩ := hd
  dsimp only at hq han hau hre
  unfold encHeader at hbytes
  dsimp only at hbytes
  simp only [List.append_assoc] at hbytes
  obtain ⟨hb1, hrest⟩ := bytesAt_append hbytes
  rw [show (encU16 id).length = 2 from rfl] at hrest
  obtain ⟨hb2, hrest⟩ := bytesAt_append hrest
  rw [List.length_singleton] at hrest
  obtain ⟨hb3, hrest⟩ := bytesAt_append hrest
  rw [List.length_singleton] at hrest
  obtain ⟨hb4, hrest⟩ := bytesAt_append hrest
  rw [show (encU16 q).length = 2 from rfl] at hrest
  obtain ⟨hb5, hrest⟩ := bytesAt_append hrest
  rw [show (encU16 an).length = 2 from rfl] at hrest
  obtain ⟨hb6, hb7⟩ := bytesAt_append hrest
  rw [show (encU16 au).length = 2 from rfl] at hb7
  have hb23 := bytesAt_pair hb2 hb3
  unfold DnsHeader.read
  rw [read_u16_at hb1 (by omega)]
  dsimp only
  rw [read_u16_at hb23 (by dsimp only; omega)]
  dsimp only
  rw [read_u16_at hb4 (by dsimp only; omega)]
  dsimp only
  rw [read_u16_at hb5 (by dsimp only; omega)]
  dsimp only
  rw [read_u16_at hb6 (by dsimp only; omega)]
  dsimp only
  rw [read_u16_at hb7 (by dsimp only; omega)]
  dsimp only
  rw [u16_round q hq, u16_round an han, u16_round au hau, u16_round re hre]
  exact ⟨_, rfl, rfl, rfl, rfl, rfl⟩

/-! ## Packet-level round trip (C5) -/

/-- Every encoded question is at least one byte, so a section never holds
more questions than bytes. -/
theorem length_le_flatten_questions (qs : List DnsQuestion) :
    qs.length ≤ ((qs.map encQuestion).flatten).length := by
  have h : ∀ l ∈ qs.map encQuestion, 1 ≤ l.length := by
    intro l hl
    obtain ⟨q, hq, rfl⟩ := List.mem_map.mp hl
    have h2 := encQname_length_ge q.name
    simp only [encQuestion, List.length_append]
    omega
  have h3 := len_le_flatten (qs.map encQuestion) h
  rwa [List.length_map] at h3

/-- Every encoded `A` record is at least one byte, so an all-`A` section
never holds more records than bytes. -/
theorem length_le_flatten_records (rs : List DnsRecord)
    (hA : ∀ r ∈ rs, ∃ dom addr ttl, r = DnsRecord.A dom addr ttl ∧ goodLabels dom ∧
      addr.o0 < 256 ∧ addr.o1 < 256 ∧ addr.o2 < 256 ∧ addr.o3 < 256 ∧ ttl < 4294967296) :
    rs.length ≤ ((rs.map encRecord).flatten).length := by
  have h : ∀ l ∈ rs.map encRecord, 1 ≤ l.length := by
    intro l hl
    obtain ⟨r, hr, rfl⟩ := List.mem_map.mp hl
    obtain ⟨dom, addr, ttl, rfl, -⟩ := hA r hr
    have h2 := encQname_length_ge dom
    simp only [encRecord, List.length_append]
    omega
  have h3 := len_le_flatten (rs.map encRecord) h
  rwa [List.length_map] at h3

set_option maxHeartbeats 2000000 in
/-- **C5 (amended).** For any message whose question names have nonempty
labels of at most 63 bytes made of ASCII bytes that are not uppercase
letters, whose question types survive the numeric round trip, and whose
records are all of variant `A` with wire-safe domains, in-range octets
and 32-bit TTLs, a successful `DnsPacket::write` into a fresh buffer
followed by `DnsPacket::from_buffer` reproduces the section counts in
the header, the questions verbatim, and every record's address and TTL.
(The original claim is refuted by `packet_roundtrip_claim_false`: the
decoder lowercases names, so an uppercase question name does not
round-trip verbatim.) -/
theorem packet_roundtrip (m : DnsPacket) (wb : BytePacketBuffer)
    (hq : ∀ q ∈ m.questions, goodLabels q.name ∧ lowerStable q.name ∧
      QueryType.from_num q.qtype.to_num = q.qtype ∧ q.qtype.to_num < 65536)
    (hrec : ∀ r ∈ m.answers ++ m.authorities ++ m.resources,
      ∃ dom addr ttl, r = DnsRecord.A dom addr ttl ∧ goodLabels dom ∧
        addr.o0 < 256 ∧ addr.o1 < 256 ∧ addr.o2 < 256 ∧ addr.o3 < 256 ∧
        ttl < 4294967296)
    (hw : m.write BytePacketBuffer.new = .ok wb) :
    ∃ (m' : DnsPacket) (bf : BytePacketBuffer),
      DnsPacket.from_buffer { wb with pos := 0 } = some (.ok (m', bf)) ∧
      m'.header.questions = m.questions.length ∧
      m'.header.answers = m.answers.length ∧
      m'.header.authoritative_entries = m.authorities.length ∧
      m'.header.resource_entries = m.resources.length ∧
      m'.questions = m.questions ∧
      m'.answers.map recAddrTtl = m.answers.map recAddrTtl ∧
      m'.authorities.map recAddrTtl = m.authorities.map recAddrTtl ∧
      m'.resources.map recAddrTtl = m.resources.map recAddrTtl := by
  obtain ⟨hwb, hpos⟩ := packet_write_inv hw
  subst hwb
  obtain ⟨B, hB⟩ : ∃ x : List Nat, (appendB BytePacketBuffer.new (encPacket m)).buf = x :=
    ⟨_, rfl⟩
  rw [hB]
  have hrecA : ∀ r ∈ m.answers,
      ∃ dom addr ttl, r = DnsRecord.A dom addr ttl ∧ goodLabels dom ∧
        addr.o0 < 256 ∧ addr.o1 < 256 ∧ addr.o2 < 256 ∧ addr.o3 < 256 ∧
        ttl < 4294967296 :=
    fun r hr => hrec r (List.mem_append_left _ (List.mem_append_left _ hr))
  have hrecU : ∀ r ∈ m.authorities,
      ∃ dom addr ttl, r = DnsRecord.A dom addr ttl ∧ goodLabels dom ∧
        addr.o0 < 256 ∧ addr.o1 < 256 ∧ addr.o2 < 256 ∧ addr.o3 < 256 ∧
        ttl < 4294967296 :=
    fun r hr => hrec r (List.mem_append_left _ (List.mem_append_right _ hr))
  have hrecR : ∀ r ∈ m.resources,
      ∃ dom addr ttl, r = DnsRecord.A dom addr ttl ∧ goodLabels dom ∧
        addr.o0 < 256 ∧ addr.o1 < 256 ∧ addr.o2 < 256 ∧ addr.o3 < 256 ∧
        ttl < 4294967296 :=
    fun r hr => hrec r (List.mem_append_right _ hr)
  have hblen : B.length = 512 := by
    rw [← hB, appendB_length]
    simp [BytePacketBuffer.new]
  have hL : (encPacket m).length ≤ 512 := by
    rw [appendB_pos] at hpos
    simpa [BytePacketBuffer.new] using hpos
  have hLsum : (encPacket m).length =
      12 + ((m.questions.map encQuestion).flatten).length
        + ((m.answers.map encRecord).flatten).length
        + ((m.authorities.map encRecord).flatten).length
        + ((m.resources.map encRecord).flatten).length := by
    unfold encPacket
    simp only [List.length_append, encHeader_length]
  have hQc := length_le_flatten_questions m.questions
  have hAc := length_le_flatten_records m.answers hrecA
  have hUc := length_le_flatten_records m.authorities hrecU
  have hRc := length_le_flatten_records m.resources hrecR
  have hbytes : bytesAt B 0 (encPacket m) := by
    rw [← hB]
    exact bytesAt_appendB BytePacketBuffer.new (encPacket m)
      (show 0 + (encPacket m).length ≤ (List.replicate 512 0).length by simpa using hL)
  clear hB
  unfold encPacket at hbytes
  simp only [List.append_assoc] at hbytes
  obtain ⟨hbH, hrest⟩ := bytesAt_append hbytes
  rw [encHeader_length] at hrest
  obtain ⟨hbQ, hrest2⟩ := bytesAt_append hrest
  obtain ⟨hbA, hrest3⟩ := bytesAt_append hrest2
  obtain ⟨hbU, hbR⟩ := bytesAt_append hrest3
  simp only [Nat.zero_add] at hbQ hbA hbU hbR
  obtain ⟨hd', hread, hc1, hc2, hc3, hc4⟩ := header_read_counts _
    { buf := B, pos := 0 }
    hbH (show (0 : Nat) + 12 ≤ 512 by norm_num)
    (Nat.mod_lt _ (by norm_num)) (Nat.mod_lt _ (by norm_num))
    (Nat.mod_lt _ (by norm_num)) (Nat.mod_lt _ (by norm_num))
  have hcq : hd'.questions = m.questions.length := by
    rw [hc1]
    show m.questions.length % 65536 = m.questions.length
    exact Nat.mod_eq_of_lt (by omega)
  have hca : hd'.answers = m.answers.length := by
    rw [hc2]
    show m.answers.length % 65536 = m.answers.length
    exact Nat.mod_eq_of_lt (by omega)
  have hcu : hd'.authoritative_entries = m.authorities.length := by
    rw [hc3]
    show m.authorities.length % 65536 = m.authorities.length
    exact Nat.mod_eq_of_lt (by omega)
  have hcr : hd'.resource_entries = m.resources.length := by
    rw [hc4]
    show m.resources.length % 65536 = m.resources.length
    exact Nat.mod_eq_of_lt (by omega)
  have hQeq := read_questions_at m.questions
    { buf := B, pos := 12 }
    hq hbQ
    (show 12 + ((m.questions.map encQuestion).flatten).length ≤ 512 by omega)
    hblen
  obtain ⟨ans', hAeq, hAmap⟩ := read_records_at m.answers
    { buf := B,
      pos := 12 + ((m.questions.map encQuestion).flatten).length }
    hrecA hbA
    (show 12 + ((m.questions.map encQuestion).flatten).length
        + ((m.answers.map encRecord).flatten).length ≤ 512 by omega)
    hblen
  obtain ⟨auth', hUeq, hUmap⟩ := read_records_at m.authorities
    { buf := B,
      pos := 12 + ((m.questions.map encQuestion).flatten).length
        + ((m.answers.map encRecord).flatten).length }
    hrecU hbU
    (show 12 + ((m.questions.map encQuestion).flatten).length
        + ((m.answers.map encRecord).flatten).length
        + ((m.authorities.map encRecord).flatten).length ≤ 512 by omega)
    hblen
  obtain ⟨res', hReq, hRmap⟩ := read_records_at m.resources
    { buf := B,
      pos := 12 + ((m.questions.map encQuestion).flatten).length
        + ((m.answers.map encRecord).flatten).length
        + ((m.authorities.map encRecord).flatten).length }
    hrecR hbR
    (show 12 + ((m.questions.map encQuestion).flatten).length
        + ((m.answers.map encRecord).flatten).length
        + ((m.authorities.map encRecord).flatten).length
        + ((m.resources.map encRecord).flatten).length ≤ 512 by omega)
    hblen
  refine ⟨{ header := hd', questions := m.questions, answers := ans',
            authorities := auth', resources := res' },
          { buf := B,
            pos := 12 + ((m.questions.map encQuestion).flatten).length
              + ((m.answers.map encRecord).flatten).length
              + ((m.authorities.map encRecord).flatten).length
              + ((m.resources.map encRecord).flatten).length },
          ?_, hcq, hca, hcu, hcr, rfl, hAmap, hUmap, hRmap⟩
  unfold DnsPacket.from_buffer
  rw [hread]
  dsimp only
  rw [hcq]
  simp only [Nat.zero_add]
  rw [hQeq]
  dsimp only
  rw [hca]
  rw [hAeq]
  dsimp only
  rw [hcu]
  rw [hUeq]
  dsimp only
  rw [hcr]
  rw [hReq]

/-- **C5 counterexample.** A message satisfying the claim's hypotheses
(records all `A` — vacuously —, question name of 3 bytes with one 3-byte
label) whose decode after encode does NOT reproduce the questions: the
decoder lowercases `"WWW"` to `"www"`. -/
theorem packet_roundtrip_claim_false :
    (∀ r ∈ c5bad.answers ++ c5bad.authorities ++ c5bad.resources, DnsRecord.isA r) ∧
    (∀ q ∈ c5bad.questions, q.name.length ≤ 255 ∧ ∀ l ∈ labelsOf q.name, l.length ≤ 63) ∧
    c5bad.write BytePacketBuffer.new = .ok c5badbuf ∧
    DnsPacket.from_buffer { c5badbuf with pos := 0 } =
      some (.ok ({ header := { DnsHeader.new with questions := 1 },
                   questions := [DnsQuestion.new (strBytes "www") .A],
                   answers := [], authorities := [], resources := [] },
                 { c5badbuf with pos := 21 })) ∧
    [DnsQuestion.new (strBytes "www") .A] ≠ c5bad.questions := by
  refine ⟨?_, ?_, ?_, ?_, ?_⟩
  · intro r hr
    simp [c5bad] at hr
  · decide
  · rfl
  · rfl
  · decide

theorem packet_roundtrip_witness :
    (∀ q ∈ c5msg.questions, goodLabels q.name ∧ lowerStable q.name ∧
      QueryType.from_num q.qtype.to_num = q.qtype ∧ q.qtype.to_num < 65536) ∧
    (∀ r ∈ c5msg.answers ++ c5msg.authorities ++ c5msg.resources,
      ∃ dom addr ttl, r = DnsRecord.A dom addr ttl ∧ goodLabels dom ∧
        addr.o0 < 256 ∧ addr.o1 < 256 ∧ addr.o2 < 256 ∧ addr.o3 < 256 ∧
        ttl < 4294967296) ∧
    c5msg.write BytePacketBuffer.new = .ok c5buf ∧
    (∃ (m' : DnsPacket) (bf : BytePacketBuffer),
      DnsPacket.from_buffer { c5buf with pos := 0 } = some (.ok (m', bf)) ∧
      m'.header.questions = c5msg.questions.length ∧
      m'.header.answers = c5msg.answers.length ∧
      m'.header.authoritative_entries = c5msg.authorities.length ∧
      m'.header.resource_entries = c5msg.resources.length ∧
      m'.questions = c5msg.questions ∧
      m'.answers.map recAddrTtl = c5msg.answers.map recAddrTtl ∧
      m'.authorities.map recAddrTtl = c5msg.authorities.map recAddrTtl ∧
      m'.resources.map recAddrTtl = c5msg.resources.map recAddrTtl) := by
  have hq : ∀ q ∈ c5msg.questions, goodLabels q.name ∧ lowerStable q.name ∧
      QueryType.from_num q.qtype.to_num = q.qtype ∧ q.qtype.to_num < 65536 := by
    intro q hq'
    simp [c5msg] at hq'
    subst hq'
    refine ⟨?_, ?_, rfl, by decide⟩
    · unfold goodLabels
      decide
    · unfold lowerStable
      decide
  have hrec : ∀ r ∈ c5msg.answers ++ c5msg.authorities ++ c5msg.resources,
      ∃ dom addr ttl, r = DnsRecord.A dom addr ttl ∧ goodLabels dom ∧
        addr.o0 < 256 ∧ addr.o1 < 256 ∧ addr.o2 < 256 ∧ addr.o3 < 256 ∧
        ttl < 4294967296 := by
    intro r hr
    simp only [c5msg, List.append_nil, List.mem_singleton] at hr
    subst hr
    exact ⟨_, _, _, rfl, by unfold goodLabels; decide,
      by decide, by decide, by decide, by decide, by decide⟩
  have hw : c5msg.write BytePacketBuffer.new = .ok c5buf := by rfl
  exact ⟨hq, hrec, hw, packet_roundtrip c5msg c5buf hq hrec hw⟩

/-! ## C9: `write_qname` label-length validation -/

/-- **C9.** `write_qname` performs no label-length validation: writing a
single 64-byte label from a fresh buffer succeeds and emits the length
byte 64 — outside the 0–63 range the wire format reserves for label
lengths — where the claim requires an error or graceful truncation. -/
theorem write_qname_no_validation :
    ∃ b' : BytePacketBuffer,
      BytePacketBuffer.new.write_qname (List.replicate 64 97) = .ok b' ∧
      b'.buf.getD 0 0 = 64 ∧ 63 < b'.buf.getD 0 0 ∧ b'.pos = 66 := by
  refine ⟨_, rfl, ?_, ?_, ?_⟩ <;> decide

/-! ## C10: `UNKNOWN` records are counted but not written -/

/-- Dropping `UNKNOWN` records does not change a section's wire bytes,
because `encRecord` maps them to `[]`. -/
theorem encRecord_flatten_filter (rs : List DnsRecord) :
    (((rs.filter (fun r => ! r.isUnknown)).map encRecord)).flatten =
      ((rs.map encRecord)).flatten := by
  induction rs with
  | nil => rfl
  | cons r rs ih =>
    cases r with
    | A domain addr ttl =>
      rw [List.filter_cons,
        if_pos (show (! (DnsRecord.A domain addr ttl).isUnknown) = true from rfl)]
      simp only [List.map_cons, List.flatten_cons, ih]
    | UNKNOWN domain qtype ttl dlen =>
      rw [List.filter_cons,
        if_neg (show ¬ ((! (DnsRecord.UNKNOWN domain qtype ttl dlen).isUnknown) = true)
          from fun h => Bool.noConfusion h)]
      simp only [List.map_cons, List.flatten_cons, encRecord, List.nil_append, ih]

/-- Filtering out an element that is present strictly shrinks a list. -/
theorem length_filter_lt_of_mem {α : Type} (p : α → Bool) :
    ∀ (l : List α) (x : α), x ∈ l → p x = false → (l.filter p).length < l.length := by
  intro l
  induction l with
  | nil => intro x hx; cases hx
  | cons a l ih =>
    intro x hx hpx
    rcases List.mem_cons.mp hx with h1 | h1
    · subst h1
      have hlen := List.length_filter_le p l
      simp [List.filter_cons, hpx]
      omega
    · have h2 := ih x h1 hpx
      cases hpa : p a <;> simp [List.filter_cons, hpa] <;> omega

/-- **C10.** An `UNKNOWN` record serializes to zero bytes (the write
returns size 0 and the untouched buffer), while `DnsPacket::write`
stores the full section lengths in the header counts; so whenever some
section holds an `UNKNOWN` record, the output declares strictly more
records than the wire carries (the byte stream is exactly header +
questions + the non-`UNKNOWN` records). -/
theorem unknown_records_declared_not_carried (m : DnsPacket) (wb : BytePacketBuffer)
    (hu : ∃ r ∈ m.answers ++ m.authorities ++ m.resources, r.isUnknown = true)
    (hw : m.write BytePacketBuffer.new = .ok wb) :
    (∀ (domain : List Nat) (qtype ttl dlen : Nat) (b : BytePacketBuffer),
      DnsRecord.write (.UNKNOWN domain qtype ttl dlen) b = .ok (0, b)) ∧
    wb = appendB BytePacketBuffer.new
      (encHeader { m.header with
                   questions := m.questions.length % 65536
                   answers := m.answers.length % 65536
                   authoritative_entries := m.authorities.length % 65536
                   resource_entries := m.resources.length % 65536 } ++
       (m.questions.map encQuestion).flatten ++
       ((m.answers.filter (fun r => ! r.isUnknown)).map encRecord).flatten ++
       ((m.authorities.filter (fun r => ! r.isUnknown)).map encRecord).flatten ++
       ((m.resources.filter (fun r => ! r.isUnknown)).map encRecord).flatten) ∧
    ((m.answers ++ m.authorities ++ m.resources).filter (fun r => ! r.isUnknown)).length
      < (m.answers ++ m.authorities ++ m.resources).length := by
  refine ⟨?_, ?_, ?_⟩
  · intro domain qtype ttl dlen b
    simp [DnsRecord.write]
  · obtain ⟨h1, -⟩ := packet_write_inv hw
    rw [h1]
    unfold encPacket
    rw [encRecord_flatten_filter, encRecord_flatten_filter, encRecord_flatten_filter]
  · obtain ⟨r, hr, hru⟩ := hu
    exact length_filter_lt_of_mem _ _ r hr (by simp [hru])

theorem unknown_records_declared_not_carried_witness :
    (∃ r ∈ c10msg.answers ++ c10msg.authorities ++ c10msg.resources, r.isUnknown = true) ∧
    c10msg.write BytePacketBuffer.new = .ok c10wb ∧
    ((∀ (domain : List Nat) (qtype ttl dlen : Nat) (b : BytePacketBuffer),
      DnsRecord.write (.UNKNOWN domain qtype ttl dlen) b = .ok (0, b)) ∧
    c10wb = appendB BytePacketBuffer.new
      (encHeader { c10msg.header with
                   questions := c10msg.questions.length % 65536
                   answers := c10msg.answers.length % 65536
                   authoritative_entries := c10msg.authorities.length % 65536
                   resource_entries := c10msg.resources.length % 65536 } ++
       (c10msg.questions.map encQuestion).flatten ++
       ((c10msg.answers.filter (fun r => ! r.isUnknown)).map encRecord).flatten ++
       ((c10msg.authorities.filter (fun r => ! r.isUnknown)).map encRecord).flatten ++
       ((c10msg.resources.filter (fun r => ! r.isUnknown)).map encRecord).flatten) ∧
    ((c10msg.answers ++ c10msg.authorities ++ c10msg.resources).filter
        (fun r => ! r.isUnknown)).length
      < (c10msg.answers ++ c10msg.authorities ++ c10msg.resources).length) := by
  have hu : ∃ r ∈ c10msg.answers ++ c10msg.authorities ++ c10msg.resources,
      r.isUnknown = true := by
    exact ⟨DnsRecord.UNKNOWN (strBytes "x") 99 0 10, by decide, rfl⟩
  have hw : c10msg.write BytePacketBuffer.new = .ok c10wb := by rfl
  exact ⟨hu, hw, unknown_records_declared_not_carried c10msg c10wb hu hw⟩
